import Mathlib

/-!
# WinAntHttp: request content model and response streaming

A shallow embedding of `winant_http/winant_request.cpp`, `winant_common_types.h`
and `winant_api.h`.

Conventions of the embedding:

* `std::string`, `std::wstring` and `kbase::StringView` are `String`; one `Char`
  stands for one byte of the C++ string.
  `std::string::empty()` is `s.data.isEmpty`, `size()` is `s.length`.
* `char buf[kBufSize]` is a `List Char`.
* The WinINet transport is a script of answers (`Transport`): what each transport
  call of one request returns.  The functions consume the script in call order.
* A registered `ReadResponseHandler` is an arbitrary `std::function`; what the
  engine does with it is the sequence of calls it makes, recorded as a list of
  `HandlerCall`.
-/

set_option autoImplicit false

namespace wat

/-! ## Failures -/

/-- Modelled from the spec: the `ENSURE(action, cond)(...).Require()` macro of kbase,
which is not part of the sources.  The spec calls every violated `ENSURE` fatal
(a hard assertion for `CHECK`, an exception for `THROW`): the enclosing operation
stops there and yields no value.  The string names the violated condition. -/
inductive Failure where
  | check (what : String)
  | thrown (what : String)
  deriving DecidableEq, Repr

deriving instance DecidableEq for Except

/-! ## Strings -/

/-- `StringView::find(delim)`: the first position at which `delim` occurs,
`none` standing for `npos`. -/
def findChars (delim : List Char) : List Char → Option Nat
  | [] => if delim.isPrefixOf [] then some 0 else none
  | c :: cs =>
    if delim.isPrefixOf (c :: cs) then some 0
    else (findChars delim cs).map (· + 1)

/-- `header_line.find(delim)` on strings. -/
def find (s delim : String) : Option Nat :=
  findChars delim.data s.data

/-- `s.substr(pos, count)`. -/
def substr (s : String) (pos count : Nat) : String :=
  ⟨(s.data.drop pos).take count⟩

/-- `s.substr(pos)`: everything from `pos` on. -/
def substrFrom (s : String) (pos : Nat) : String :=
  ⟨s.data.drop pos⟩

/-- Lexicographic comparison of two byte sequences, `true` when the first is less. -/
def lessChars : List Char → List Char → Bool
  | _, [] => false
  | [], _ :: _ => true
  | a :: as, b :: bs =>
    if a.toNat < b.toNat then true
    else if b.toNat < a.toNat then false
    else lessChars as bs

/-- `std::less<std::string>`: the comparison of the map `Headers` is built on. -/
def less (a b : String) : Bool :=
  lessChars a.data b.data

/-! ## Headers (`std::map<std::string, std::string>`) -/

/-- `Headers::data_type`: the entries of the ordered map, in iteration order. -/
structure Headers where
  headers_ : List (String × String)
  deriving DecidableEq, Repr

namespace Headers

/-- `Headers()`: the empty map. -/
def mk0 : Headers := ⟨[]⟩

/-- `std::map::insert_or_assign` on the entry list: the entry is placed before the
first greater key, and an entry with an equivalent key is overwritten. -/
def insertEntry (key value : String) : List (String × String) → List (String × String)
  | [] => [(key, value)]
  | (k, v) :: rest =>
    if less key k then (key, value) :: (k, v) :: rest
    else if less k key then (k, v) :: insertEntry key value rest
    else (key, value) :: rest

/-- `std::map::insert`: like `insertEntry`, but an entry with an equivalent key
is left as it is. -/
def insertNew (key value : String) : List (String × String) → List (String × String)
  | [] => [(key, value)]
  | (k, v) :: rest =>
    if less key k then (key, value) :: (k, v) :: rest
    else if less k key then (k, v) :: insertNew key value rest
    else (k, v) :: rest

/-- `Headers(std::initializer_list<value_type> init) : headers_(init)`: the map
constructor inserts the elements in order, keeping the first of equal keys. -/
def ofInit (init : List (String × String)) : Headers :=
  ⟨init.foldl (fun acc kv => insertNew kv.1 kv.2 acc) []⟩

/-- `Headers::empty()`. -/
def empty (h : Headers) : Bool := h.headers_.isEmpty

/-- `Headers::clear()`. -/
def clear (_h : Headers) : Headers := ⟨[]⟩

/-- Modelled from the spec: `Headers::SetHeader` (defined in the absent
`winant_common_types.cpp`): insert or overwrite. -/
def SetHeader (h : Headers) (key value : String) : Headers :=
  ⟨insertEntry key value h.headers_⟩

/-- Modelled from the spec: `Headers::GetHeader` (defined in the absent
`winant_common_types.cpp`): the value stored under `key`, if any. -/
def GetHeader (h : Headers) (key : String) : Option String :=
  (h.headers_.find? (fun kv => kv.1 == key)).map (·.2)

/-- Modelled from the spec: `Headers::HasHeader` (defined in the absent
`winant_common_types.cpp`). -/
def HasHeader (h : Headers) (key : String) : Bool :=
  (h.GetHeader key).isSome

/-- Modelled from the spec: `Headers::RemoveHeader` (defined in the absent
`winant_common_types.cpp`): erase the entry, a no-op when it is absent. -/
def RemoveHeader (h : Headers) (key : String) : Headers :=
  ⟨h.headers_.filter (fun kv => !(kv.1 == key))⟩

end Headers

/-! ## Load flags and the response -/

/-- `LoadFlags`: a `uint32_t` bit mask. -/
structure LoadFlags where
  flags : Nat
  deriving DecidableEq, Repr

namespace LoadFlags

/-- `LoadFlags::Normal`. -/
def Normal : Nat := 0

/-- `LoadFlags::DoNotSaveResponseBody = 1 << 0`. -/
def DoNotSaveResponseBody : Nat := 1 <<< 0

/-- `explicit LoadFlags(value_type flags)`: the value is stored in 32 bits. -/
def ofFlags (flags : Nat) : LoadFlags := ⟨flags % 2 ^ 32⟩

/-- `LoadFlags()`. -/
def default : LoadFlags := ⟨Normal⟩

end LoadFlags

/-- `HttpResponse(status_code, headers, body)` (declared in the absent
`winant_response.h`): the three values `HttpRequest::Start` passes to it. -/
structure HttpResponse where
  status_code : Int
  headers : Headers
  text : String
  deriving DecidableEq, Repr

/-! ## The transport script -/

/-- One answer of `InternetReadFile`: `TRUE` with the bytes it wrote into the
buffer (none at the end of the stream), or `FALSE`. -/
inductive ReadResult where
  | ok (bytes : List Char)
  | fail
  deriving DecidableEq, Repr

/-- The answers of the WinINet calls `HttpRequest::Start` makes on one request. -/
structure Transport where
  /-- The result of `HttpSendRequestW`. -/
  send_ok : Bool
  /-- The status code of `HttpQueryInfoW`, `none` when the query fails. -/
  status_code : Option Int
  /-- Whether the sizing call of `HttpQueryInfoA` leaves `ERROR_INSUFFICIENT_BUFFER`. -/
  insufficient_buffer : Bool
  /-- The raw header block `HttpQueryInfoA` writes into `header_buf`. -/
  header_buf : String
  /-- The result of the second `HttpQueryInfoA`. -/
  headers_ok : Bool
  /-- The answers of the successive `InternetReadFile` calls. -/
  reads : List ReadResult
  deriving DecidableEq, Repr

/-- One invocation `read_handler(data, bytes_read)`: `data` is `none` for
`nullptr`, otherwise the contents of the buffer it points to. -/
structure HandlerCall where
  data : Option (List Char)
  bytes_read : Int
  deriving DecidableEq, Repr

/-- The bytes a handler call hands over: the first `bytes_read` bytes at `data`. -/
def HandlerCall.delivered (c : HandlerCall) : List Char :=
  match c.data with
  | some buf => buf.take c.bytes_read.toNat
  | none => []

/-- `static_cast<int>` of a `DWORD`. -/
def toInt32 (n : Nat) : Int :=
  if n % 2 ^ 32 < 2 ^ 31 then ((n % 2 ^ 32 : Nat) : Int) else ((n % 2 ^ 32 : Nat) : Int) - 2 ^ 32

/-! ## Header parsing -/

/-- `SplitHeaderLine` in `winant_request.cpp`. -/
def SplitHeaderLine (header_line : String) : Except Failure (String × String) :=
  let delim : String := ": "
  match find header_line delim with
  | none => .error (.check "pos != kbase::StringView::npos")
  | some pos =>
    let name := substr header_line 0 pos
    let value := substrFrom header_line (pos + delim.length)
    .ok (name, value)

/-- The loop of `ReadResponseHeaders` over the lines after the status line. -/
def ReadResponseHeaders.loop : List String → Headers → Except Failure Headers
  | [], headers => .ok headers
  | line :: rest, headers =>
    match SplitHeaderLine line with
    | .error e => .error e
    | .ok values => ReadResponseHeaders.loop rest (headers.SetHeader values.1 values.2)

/-- `ReadResponseHeaders` in `winant_request.cpp`.  `tokenize` is
`kbase::Tokenizer(header_buf, "\r\n")`, a class of the kbase library: the
sequence of lines it yields for a header block.  `std::next(begin())` skips the
first of them (and stays at the end of an empty sequence). -/
def ReadResponseHeaders (tokenize : String → List String) (t : Transport)
    (headers : Headers) : Except Failure (Bool × Headers) :=
  if !t.insufficient_buffer then
    .error (.check "error.error_code() == ERROR_INSUFFICIENT_BUFFER")
  else
    let header_lines := tokenize t.header_buf
    match ReadResponseHeaders.loop header_lines.tail headers with
    | .error e => .error e
    | .ok headers => .ok (t.headers_ok, headers)

/-! ## Body streaming -/

/-- `kBufSize` in `ReadResponseBody`. -/
def kBufSize : Nat := 4 * 1024

/-- What `InternetReadFile(request, buf, kBufSize, &bytes_read)` leaves behind:
`(success, bytes_read, buf)`.  A failed read leaves `bytes_read` at the 0 it
was initialised with. -/
def InternetReadFile (r : ReadResult) (buf : List Char) : Bool × Nat × List Char :=
  match r with
  | .ok bytes => (true, bytes.length, bytes ++ buf.drop bytes.length)
  | .fail => (false, 0, buf)

/-- The state the `while (true)` loop of `ReadResponseBody` is left in. -/
structure LoopResult where
  success : Bool
  buf : List Char
  response_body : Option String
  calls : List HandlerCall
  reads_left : List ReadResult
  deriving DecidableEq, Repr

/-- The state `ReadResponseBody` ends in. -/
structure BodyResult where
  success : Bool
  response_body : Option String
  calls : List HandlerCall
  reads_left : List ReadResult
  deriving DecidableEq, Repr

/-- The `while (true)` loop of `ReadResponseBody`.  `response_body` is `none` for a
null pointer; `read_handler` says whether a handler is registered.  The result
is `none` when the script ends before the loop does. -/
def ReadResponseBody.loop (read_handler : Bool) :
    List ReadResult → List Char → Option String → List HandlerCall → Option LoopResult
  | [], _, _, _ => none
  | r :: rest, buf, response_body, calls =>
    match InternetReadFile r buf with
    | (success, bytes_read, buf) =>
      if !success || bytes_read == 0 then
        some ⟨success, buf, response_body, calls, rest⟩
      else
        let response_body := response_body.map (fun b => b ++ ⟨buf.take bytes_read⟩)
        let calls :=
          if read_handler then calls ++ [⟨some buf, toInt32 bytes_read⟩] else calls
        ReadResponseBody.loop read_handler rest buf response_body calls

/-- `ReadResponseBody` in `winant_request.cpp`: `char buf[kBufSize] {0}`, the loop,
the final handler call and the return. -/
def ReadResponseBody (reads : List ReadResult) (response_body : Option String)
    (read_handler : Bool) : Option BodyResult :=
  match ReadResponseBody.loop read_handler reads (List.replicate kBufSize '\x00')
      response_body [] with
  | none => none
  | some l =>
    let calls :=
      if read_handler then
        if l.success then l.calls ++ [⟨some l.buf, 0⟩] else l.calls ++ [⟨none, -1⟩]
      else l.calls
    some ⟨l.success, l.response_body, calls, l.reads_left⟩

/-! ## The request engine -/

/-- `HttpRequest::Method`. -/
inductive Method where
  | Get
  | Post
  | Head
  deriving DecidableEq, Repr

/-- `MethodToVerb` with `kVerbTable`. -/
def MethodToVerb : Method → String
  | .Get => "GET"
  | .Post => "POST"
  | .Head => "HEAD"

/-- `Url`: a wrapper of the address string. -/
structure Url where
  spec_ : String
  deriving DecidableEq, Repr

/-- `Url::empty()`. -/
def Url.empty (u : Url) : Bool := u.spec_.data.isEmpty

/-- `Url::spec()`. -/
def Url.spec (u : Url) : String := u.spec_

/-- The headers held by the WinINet request handle: for each header name the
header line added under it. -/
structure RequestHandle where
  lines : List (String × String)
  deriving DecidableEq, Repr

/-- The members of `HttpRequest` the engine reads and writes.  `request_` is the
state of the open request handle; `read_response_handler_` says whether the
`std::function` holds a handler. -/
structure HttpRequest where
  method_ : Method
  canonicalized_url_ : Url
  request_ : RequestHandle
  body_ : String
  load_flags_ : LoadFlags
  read_response_handler_ : Bool
  deriving DecidableEq, Repr

/-- `HttpRequest::SetLoadFlags`. -/
def HttpRequest.SetLoadFlags (req : HttpRequest) (flags : LoadFlags) : HttpRequest :=
  { req with load_flags_ := flags }

/-- `HttpRequest::SetReadResponseHandler` with a non-empty handler. -/
def HttpRequest.SetReadResponseHandler (req : HttpRequest) : HttpRequest :=
  { req with read_response_handler_ := true }

/-- What one `HttpRequest::Start` did: the handler calls it made, the part of the
read script it did not consume, and the response or the failure it ended with. -/
structure StartResult where
  calls : List HandlerCall
  reads_left : List ReadResult
  result : Except Failure HttpResponse
  deriving DecidableEq

/-- `HttpRequest::Start` in `winant_request.cpp`.  The result is `none` when the
read script ends before the body loop does. -/
def HttpRequest.Start (tokenize : String → List String) (req : HttpRequest)
    (t : Transport) : Option StartResult :=
  if !req.body_.data.isEmpty && !(decide (req.body_.length ≤ 2 ^ 32 - 1)) then
    some ⟨[], t.reads, .error (.check "body_.size() <= std::numeric_limits<DWORD>::max()")⟩
  else if !t.send_ok then
    some ⟨[], t.reads, .error (.thrown "HttpSendRequestW")⟩
  else
    match t.status_code with
    | none => some ⟨[], t.reads, .error (.thrown "HttpQueryInfoW")⟩
    | some response_status_code =>
      match ReadResponseHeaders tokenize t Headers.mk0 with
      | .error e => some ⟨[], t.reads, .error e⟩
      | .ok (complete, response_headers) =>
        if !complete then some ⟨[], t.reads, .error (.check "complete")⟩
        else
          let body_ptr : Option String :=
            if req.load_flags_.flags &&& LoadFlags.DoNotSaveResponseBody ≠ 0 then none
            else some ""
          match ReadResponseBody t.reads body_ptr req.read_response_handler_ with
          | none => none
          | some r =>
            if !r.success then some ⟨r.calls, r.reads_left, .error (.check "complete")⟩
            else
              some ⟨r.calls, r.reads_left,
                .ok ⟨response_status_code, response_headers, r.response_body.getD ""⟩⟩

/-! ## Request content -/

/-- `RequestContent`: (content-type header, content). -/
abbrev RequestContent := String × String

/-- The strings of a list appended one after the other. -/
def concat : List String → String
  | [] => ""
  | s :: rest => s ++ concat rest

/-- The strings of a list with `sep` between neighbours. -/
def joinWith (sep : String) : List String → String
  | [] => ""
  | [s] => s
  | s :: t :: rest => s ++ sep ++ joinWith sep (t :: rest)

/-- The upper-case hexadecimal digit of a value below 16. -/
def hexDigit (n : Nat) : Char :=
  if n < 10 then Char.ofNat (48 + n) else Char.ofNat (55 + n)

/-- The escape `%XX` of one byte. -/
def percentEncode (c : Char) : List Char :=
  ['%', hexDigit (c.toNat / 16 % 16), hexDigit (c.toNat % 16)]

/-- Percent-encoding of a byte sequence: reserved bytes become `%XX`. -/
def escapeChars (reserved : Char → Bool) : List Char → List Char
  | [] => []
  | c :: cs => (if reserved c then percentEncode c else [c]) ++ escapeChars reserved cs

/-- Modelled from the spec: the percent-encoding applied to keys and values (the
encoders are defined in the absent `winant_common_types.cpp`).  The spec fixes
that space, `&` and `=` are escaped and that letters, digits and `.` are not,
and leaves the rest of the reserved set open: the set is the parameter `reserved`. -/
def Escape (reserved : Char → Bool) (s : String) : String :=
  ⟨escapeChars reserved s.data⟩

/-- Modelled from the spec: the `key=value` segment of one pair; a pair whose key
and value are both empty contributes an empty segment. -/
def pairSegment (reserved : Char → Bool) (kv : String × String) : String :=
  if kv.1.data.isEmpty && kv.2.data.isEmpty then ""
  else Escape reserved kv.1 ++ "=" ++ Escape reserved kv.2

/-- Modelled from the spec: the form encoding shared by `Parameters::ToString` and
`Payload::ToString` (absent `winant_common_types.cpp`): the segments in insertion
order, an `&` before every segment that is appended to a non-empty result; a
sequence of empty pairs only encodes to the empty string. -/
def encodePairs (reserved : Char → Bool) (pairs : List (String × String)) : String :=
  pairs.foldl
    (fun content kv =>
      (if content.data.isEmpty then content else content ++ "&") ++ pairSegment reserved kv) ""

/-- `Parameters`: the vector of (key, value) pairs. -/
structure Parameters where
  params : List (String × String)
  deriving DecidableEq, Repr

/-- `Parameters::empty()`. -/
def Parameters.empty (p : Parameters) : Bool := p.params.isEmpty

/-- Modelled from the spec: `Parameters::Add` (absent `winant_common_types.cpp`):
append the pair, duplicates allowed. -/
def Parameters.Add (p : Parameters) (param : String × String) : Parameters :=
  ⟨p.params ++ [param]⟩

/-- Modelled from the spec: `Parameters::ToString` (absent `winant_common_types.cpp`). -/
def Parameters.ToString (reserved : Char → Bool) (p : Parameters) : String :=
  encodePairs reserved p.params

/-- `Payload`: the vector of (key, value) arguments. -/
structure Payload where
  data : List (String × String)
  deriving DecidableEq, Repr

/-- `Payload::empty()`. -/
def Payload.empty (p : Payload) : Bool := p.data.isEmpty

/-- Modelled from the spec: `Payload::Add` (absent `winant_common_types.cpp`). -/
def Payload.Add (p : Payload) (arg : String × String) : Payload :=
  ⟨p.data ++ [arg]⟩

/-- Modelled from the spec: `Payload::ToString` (absent `winant_common_types.cpp`). -/
def Payload.ToString (reserved : Char → Bool) (p : Payload) : RequestContent :=
  ("Content-Type: application/x-www-form-urlencoded\r\n", encodePairs reserved p.data)

/-- `JSONContent`: the JSON text. -/
structure JSONContent where
  data : String
  deriving DecidableEq, Repr

/-- `JSONContent::empty()`. -/
def JSONContent.empty (j : JSONContent) : Bool := j.data.data.isEmpty

/-- Modelled from the spec: `JSONContent::ToString` (absent `winant_common_types.cpp`). -/
def JSONContent.ToString (j : JSONContent) : RequestContent :=
  ("Content-Type: application/json\r\n", j.data)

/-- `Multipart::File`. -/
structure Multipart.File where
  name : String
  filename : String
  mime_type : String
  data : String
  deriving DecidableEq, Repr

/-- `Multipart::File::kDefaultMimeType`. -/
def Multipart.File.kDefaultMimeType : String := "application/octet-stream"

/-- Modelled from the spec: the mime type written for a file part, the default
when the part has none set. -/
def Multipart.File.mime (f : Multipart.File) : String :=
  if f.mime_type.data.isEmpty then Multipart.File.kDefaultMimeType else f.mime_type

/-- `Multipart`: the file parts and the (name, value) parts. -/
structure Multipart where
  files : List Multipart.File
  values : List (String × String)
  deriving DecidableEq, Repr

/-- `Multipart::empty()`. -/
def Multipart.empty (m : Multipart) : Bool := m.files.isEmpty && m.values.isEmpty

/-- One `AddPart` argument: a `File` or a `Value`. -/
inductive Multipart.Part where
  | file (f : Multipart.File)
  | value (v : String × String)
  deriving DecidableEq, Repr

/-- Modelled from the spec: the `Multipart::AddPart` overloads (absent
`winant_common_types.cpp`): a file is appended to `files`, a value to `values`. -/
def Multipart.AddPart (m : Multipart) : Multipart.Part → Multipart
  | .file f => { m with files := m.files ++ [f] }
  | .value v => { m with values := m.values ++ [v] }

/-- Modelled from the spec: `Multipart::ToString` (absent `winant_common_types.cpp`).
`boundary` is the token the call generates.  The body is built by appending the
part of every file, then the part of every value, then the closing line. -/
def Multipart.ToString (boundary : String) (m : Multipart) : RequestContent :=
  let content_type := "Content-Type: multipart/form-data; boundary=" ++ boundary ++ "\r\n"
  let body := m.files.foldl
    (fun body f =>
      body ++ "--" ++ boundary ++ "\r\n"
        ++ "Content-Disposition: form-data; name=\"" ++ f.name
        ++ "\"; filename=\"" ++ f.filename ++ "\"\r\n"
        ++ "Content-Type: " ++ f.mime ++ "\r\n\r\n"
        ++ f.data ++ "\r\n") ""
  let body := m.values.foldl
    (fun body v =>
      body ++ "--" ++ boundary ++ "\r\n"
        ++ "Content-Disposition: form-data; name=\"" ++ v.1 ++ "\"\r\n\r\n"
        ++ v.2 ++ "\r\n") body
  (content_type, body ++ "--" ++ boundary ++ "--\r\n")

/-- Modelled from the spec: `Headers::ToString` (absent `winant_common_types.cpp`):
one line per entry in map order, `key: value` or `key:` for an empty value, and
an empty line at the end. -/
def Headers.ToString (h : Headers) : String :=
  h.headers_.foldl
    (fun out kv =>
      if kv.2.data.isEmpty then out ++ kv.1 ++ ":" ++ "\r\n"
      else out ++ kv.1 ++ ": " ++ kv.2 ++ "\r\n") "" ++ "\r\n"

/-! ## Setting the content of a request -/

/-- The flags `SetContentHeader` passes to `HttpAddRequestHeadersW`. -/
inductive AddReqFlag where
  /-- `HTTP_ADDREQ_FLAG_ADD_IF_NEW`. -/
  | ADD_IF_NEW
  /-- `HTTP_ADDREQ_FLAG_ADD | HTTP_ADDREQ_FLAG_REPLACE`. -/
  | ADD_REPLACE
  deriving DecidableEq, Repr

/-- The name of a header line: what stands before its first colon. -/
def headerName (line : String) : String :=
  ⟨line.data.takeWhile (fun c => c != ':')⟩

/-- The transport's `HttpAddRequestHeadersW` for one header line, as WinINet
documents the two flag values: `ADD_IF_NEW` adds the header only if the handle
has none of that name and fails otherwise; `ADD | REPLACE` replaces the header
of that name, or adds it when the handle has none.  `none` is the result `FALSE`. -/
def HttpAddRequestHeadersW (request : RequestHandle) (line : String) (flag : AddReqFlag) :
    Option RequestHandle :=
  let name := headerName line
  match flag with
  | .ADD_IF_NEW =>
    if request.lines.any (fun e => e.1 == name) then none
    else some ⟨request.lines ++ [(name, line)]⟩
  | .ADD_REPLACE =>
    if request.lines.any (fun e => e.1 == name) then
      some ⟨request.lines.map (fun e => if e.1 == name then (name, line) else e)⟩
    else some ⟨request.lines ++ [(name, line)]⟩

/-- `SetContentHeader` in `winant_request.cpp`; `ndebug` says whether `NDEBUG` is defined. -/
def SetContentHeader (ndebug : Bool) (request : RequestHandle) (content_type : String) :
    Except Failure RequestHandle :=
  let flag := if ndebug then AddReqFlag.ADD_REPLACE else AddReqFlag.ADD_IF_NEW
  match HttpAddRequestHeadersW request content_type flag with
  | none => .error (.thrown "HttpAddRequestHeadersW")
  | some request => .ok request

/-- `HttpRequest::SetContent`. -/
def HttpRequest.SetContent (ndebug : Bool) (req : HttpRequest) (content : RequestContent) :
    Except Failure HttpRequest :=
  let content_type := content.1
  let content_data := content.2
  match SetContentHeader ndebug req.request_ content_type with
  | .error e => .error e
  | .ok request => .ok { req with request_ := request, body_ := content_data }

/-- `HttpRequest::SetPayload`. -/
def HttpRequest.SetPayload (ndebug : Bool) (reserved : Char → Bool) (req : HttpRequest)
    (payload : Payload) : Except Failure HttpRequest :=
  req.SetContent ndebug (payload.ToString reserved)

/-- `HttpRequest::SetJSON`. -/
def HttpRequest.SetJSON (ndebug : Bool) (req : HttpRequest) (json : JSONContent) :
    Except Failure HttpRequest :=
  req.SetContent ndebug json.ToString

/-- `HttpRequest::SetMultipart`; `boundary` is the token `ToString` generates. -/
def HttpRequest.SetMultipart (ndebug : Bool) (boundary : String) (req : HttpRequest)
    (multipart : Multipart) : Except Failure HttpRequest :=
  req.SetContent ndebug (multipart.ToString boundary)

/-- One call among `SetPayload`, `SetJSON` and `SetMultipart`. -/
inductive ContentCall where
  | SetPayload (payload : Payload)
  | SetJSON (json : JSONContent)
  | SetMultipart (boundary : String) (multipart : Multipart)
  deriving DecidableEq, Repr

/-- The content the encoder of a call produces. -/
def ContentCall.content (reserved : Char → Bool) : ContentCall → RequestContent
  | .SetPayload payload => payload.ToString reserved
  | .SetJSON json => json.ToString
  | .SetMultipart boundary multipart => multipart.ToString boundary

/-- The call made on a request. -/
def ContentCall.run (ndebug : Bool) (reserved : Char → Bool) (req : HttpRequest) :
    ContentCall → Except Failure HttpRequest
  | .SetPayload payload => req.SetPayload ndebug reserved payload
  | .SetJSON json => req.SetJSON ndebug json
  | .SetMultipart boundary multipart => req.SetMultipart ndebug boundary multipart

/-- A sequence of content calls on one request object: the final state of the
object and the failure, if any, of each call.  A call that throws leaves the
object as it was: the exception leaves `SetContent` before `body_` is assigned,
and the rejected header was not added to the handle. -/
def runCalls (ndebug : Bool) (reserved : Char → Bool) :
    HttpRequest → List ContentCall → HttpRequest × List (Option Failure)
  | req, [] => (req, [])
  | req, call :: rest =>
    match call.run ndebug reserved req with
    | .error e =>
      let r := runCalls ndebug reserved req rest
      (r.1, some e :: r.2)
    | .ok req =>
      let r := runCalls ndebug reserved req rest
      (r.1, none :: r.2)

/-- The header line the handle holds under a name. -/
def RequestHandle.header (request : RequestHandle) (name : String) : Option String :=
  (request.lines.find? (fun e => e.1 == name)).map (·.2)

/-! ## The public API (`winant_api.h`) -/

/-- The answers of the WinINet calls of the `HttpRequest` constructor. -/
structure OpenAnswers where
  crack_ok : Bool
  inet_ok : Bool
  conn_ok : Bool
  request_ok : Bool
  deriving DecidableEq, Repr

/-- `HttpRequest::HttpRequest(Method method, const Url& url)`. -/
def HttpRequest.create (o : OpenAnswers) (method : Method) (url : Url) :
    Except Failure HttpRequest :=
  if url.empty then .error (.check "!canonicalized_url_.empty()")
  else if !o.crack_ok then .error (.thrown "InternetCrackUrlW")
  else if !o.inet_ok then .error (.thrown "!!inet_env_")
  else if !o.conn_ok then .error (.thrown "!!conn_session_")
  else if !o.request_ok then .error (.thrown "!!request_")
  else .ok ⟨method, url, ⟨[]⟩, "", LoadFlags.default, false⟩

/-- An argument of `Get`: one of the types `HttpRequestBuilder::SetOption` is
overloaded for. -/
inductive RequestOption where
  | url (u : Url)
  | headers (h : Headers)
  | params (p : Parameters)
  | payload (p : Payload)
  | json (j : JSONContent)
  deriving DecidableEq, Repr

/-- The member functions of `HttpRequestBuilder` that `winant_api.h` calls.  The
class is declared in `winant_request_builder.h`; its member functions are defined
in a file that is not part of the sources, so they are parameters here. -/
structure BuilderOps (Builder : Type) where
  /-- `HttpRequestBuilder(HttpRequest::Method method)`. -/
  create : Method → Builder
  /-- The `SetOption` overloads. -/
  SetOption : Builder → RequestOption → Builder
  /-- `Build()`; a failure is an exception of the `HttpRequest` constructor. -/
  Build : Builder → Except Failure HttpRequest

/-- `SetRequestBuilder(builder, arg, args...)`: the first argument is applied,
then the others. -/
def SetRequestBuilder {Builder : Type} (ops : BuilderOps Builder) (builder : Builder)
    (arg : RequestOption) : List RequestOption → Builder
  | [] => ops.SetOption builder arg
  | next :: args => SetRequestBuilder ops (ops.SetOption builder arg) next args

/-- `BuildRequest(method, args...)`. -/
def BuildRequest {Builder : Type} (ops : BuilderOps Builder) (method : Method)
    (arg : RequestOption) (args : List RequestOption) : Except Failure HttpRequest :=
  let builder := ops.create method
  let builder := SetRequestBuilder ops builder arg args
  ops.Build builder

/-- `wat::Get(args...)` in `winant_api.h`: the request is built and dropped, and a
default-constructed `HttpResponse` is returned (`default_response`; the class is
declared in the absent `winant_response.h`).  An exception of `BuildRequest`
leaves `Get`. -/
def Get {Builder : Type} (ops : BuilderOps Builder) (default_response : HttpResponse)
    (arg : RequestOption) (args : List RequestOption) : Except Failure HttpResponse :=
  match BuildRequest ops .Get arg args with
  | .error e => .error e
  | .ok _ => .ok default_response

/-! ## Specification helpers -/

/-- The handler calls of the loop for a run of non-empty chunks read into `buf`. -/
def chunkCalls : List Char → List (List Char) → List HandlerCall
  | _, [] => []
  | buf, c :: cs =>
    ⟨some (c ++ buf.drop c.length), toInt32 c.length⟩ :: chunkCalls (c ++ buf.drop c.length) cs

/-- The buffer after a run of chunks was read into it. -/
def bufAfter : List Char → List (List Char) → List Char
  | buf, [] => buf
  | buf, c :: cs => bufAfter (c ++ buf.drop c.length) cs

/-- A sketch of `kbase::Tokenizer(str, delim)` for the concrete examples: the
maximal runs of characters that are not in `delim`.  `cur` is the token being read. -/
def Tokenizer.tokens (delim : List Char) : List Char → List Char → List String
  | cur, [] => if cur.isEmpty then [] else [⟨cur⟩]
  | cur, c :: cs =>
    if delim.contains c then
      if cur.isEmpty then Tokenizer.tokens delim [] cs
      else ⟨cur⟩ :: Tokenizer.tokens delim [] cs
    else Tokenizer.tokens delim (cur ++ [c]) cs

/-- The lines `kbase::Tokenizer(header_buf, "\r\n")` yields in the examples. -/
def Tokenizer (header_buf : String) : List String :=
  Tokenizer.tokens ['\r', '\n'] [] header_buf.data

/-- The entries of a map are in strictly ascending key order. -/
def Headers.Ascending (l : List (String × String)) : Prop :=
  l.Pairwise (fun a b => less a.1 b.1 = true)

/-- The file part of the multipart framing, for the boundary token `t`. -/
def Multipart.framedFile (t : String) (f : Multipart.File) : String :=
  "--" ++ t ++ "\r\n"
    ++ "Content-Disposition: form-data; name=\"" ++ f.name
    ++ "\"; filename=\"" ++ f.filename ++ "\"\r\n"
    ++ "Content-Type: " ++ f.mime ++ "\r\n\r\n"
    ++ f.data ++ "\r\n"

/-- The value part of the multipart framing, for the boundary token `t`. -/
def Multipart.framedValue (t : String) (v : String × String) : String :=
  "--" ++ t ++ "\r\n"
    ++ "Content-Disposition: form-data; name=\"" ++ v.1 ++ "\"\r\n\r\n"
    ++ v.2 ++ "\r\n"

/-- The files among a sequence of `AddPart` arguments, in call order. -/
def Multipart.filesOf : List Multipart.Part → List Multipart.File
  | [] => []
  | .file f :: rest => f :: Multipart.filesOf rest
  | .value _ :: rest => Multipart.filesOf rest

/-- The values among a sequence of `AddPart` arguments, in call order. -/
def Multipart.valuesOf : List Multipart.Part → List (String × String)
  | [] => []
  | .file _ :: rest => Multipart.valuesOf rest
  | .value v :: rest => v :: Multipart.valuesOf rest

/-- One mutating operation of `Headers`. -/
inductive Headers.Op where
  | SetHeader (key value : String)
  | RemoveHeader (key : String)
  | clear
  deriving DecidableEq, Repr

/-- The operation applied to a map. -/
def Headers.apply (h : Headers) : Headers.Op → Headers
  | .SetHeader key value => h.SetHeader key value
  | .RemoveHeader key => h.RemoveHeader key
  | .clear => h.clear

/-- A `Headers` object: constructed from an initializer list (the empty list for
the default constructor), then mutated by a sequence of operations. -/
def Headers.build (init : List (String × String)) (ops : List Headers.Op) : Headers :=
  ops.foldl Headers.apply (Headers.ofInit init)

/-- A reserved set for the examples: everything but letters, digits and `-_.~`. -/
def exampleReserved (c : Char) : Bool :=
  !(c.isAlphanum || c == '-' || c == '_' || c == '.' || c == '~')

/-- A request as the constructor leaves it, on a handle without headers. -/
def exampleRequest : HttpRequest :=
  ⟨.Get, ⟨"https://httpbin.org/get"⟩, ⟨[]⟩, "", LoadFlags.default, false⟩

/-- A builder for the examples: it keeps the url and opens the request on it. -/
def exampleBuilder : BuilderOps Url where
  create := fun _ => ⟨""⟩
  SetOption := fun builder option =>
    match option with
    | .url u => u
    | _ => builder
  Build := fun builder => HttpRequest.create ⟨true, true, true, true⟩ .Get builder

/-- A server answer with the given status code, a JSON content type and a JSON body. -/
def jsonTransport (code : Int) : Transport :=
  ⟨true, some code, true, "HTTP/1.1 200 OK\r\nContent-Type: application/json\r\n\r\n", true,
    [.ok "\x7b\x7d".data, .ok []]⟩

/-- A server answer whose status line contains `": "` and which repeats a header name. -/
def repeatedHeaderTransport : Transport :=
  ⟨true, some 200, true,
    "HTTP/1.1 200 OK: fine\r\nSet-Cookie: a=1\r\nContent-Type: text/html\r\nSet-Cookie: b=2\r\n\r\n",
    true, [.ok []]⟩

/-- A server answer with the header line `X-Empty:`, which has no `": "`. -/
def malformedHeaderTransport : Transport :=
  ⟨true, some 200, true,
    "HTTP/1.1 200 OK\r\nX-Empty:\r\nServer: nginx\r\n\r\n", true, [.ok "body".data, .ok []]⟩

/-- A server answer: status 200, a JSON content type and the given reads. -/
def exampleTransport (reads : List ReadResult) : Transport :=
  ⟨true, some 200, true,
    "HTTP/1.1 200 OK\r\nContent-Type: application/json\r\nServer: nginx\r\n\r\n", true, reads⟩

end wat

/-! # Theorems -/

namespace wat

/-! ## Body streaming -/

theorem toInt32_of_le_kBufSize (n : Nat) (h : n ≤ kBufSize) : toInt32 n = (n : Int) := by
  have h1 : n < 2 ^ 31 := lt_of_le_of_lt h (by decide)
  have h2 : n % 2 ^ 32 = n := Nat.mod_eq_of_lt (lt_trans h1 (by decide))
  unfold toInt32
  rw [h2, if_pos h1]

theorem ReadResponseBody.loop_chunks (read_handler : Bool) (last : ReadResult)
    (hlast : last = .ok [] ∨ last = .fail) (rest : List ReadResult) :
    ∀ (chunks : List (List Char)), (∀ c ∈ chunks, 0 < c.length) →
    ∀ (buf : List Char) (body : Option String) (calls : List HandlerCall),
    ReadResponseBody.loop read_handler (chunks.map .ok ++ last :: rest) buf body calls =
      some ⟨decide (last = .ok []),
        bufAfter buf chunks,
        body.map (fun b => b ++ ⟨chunks.flatten⟩),
        if read_handler then calls ++ chunkCalls buf chunks else calls,
        rest⟩ := by
  intro chunks
  induction chunks with
  | nil =>
    intro _ buf body calls
    rcases hlast with h | h <;> subst h <;>
      cases read_handler <;> cases body <;>
      simp [ReadResponseBody.loop, InternetReadFile, chunkCalls, bufAfter]
  | cons c cs ih =>
    intro hpos buf body calls
    have hc : 0 < c.length := hpos c (List.mem_cons_self _ _)
    have hcs : ∀ d ∈ cs, 0 < d.length := fun d hd => hpos d (List.mem_cons_of_mem _ hd)
    have hne : c.length ≠ 0 := Nat.pos_iff_ne_zero.mp hc
    simp only [List.map_cons, List.cons_append, ReadResponseBody.loop, InternetReadFile]
    simp only [Bool.not_true, Bool.false_or, beq_iff_eq, hne, if_false, List.append_eq]
    rw [ih hcs]
    cases read_handler <;> cases body <;>
      simp [chunkCalls, bufAfter, List.take_left, String.ext_iff]

/-- `ReadResponseBody` on a run of non-empty chunks ended by a 0-byte or a failed read. -/
theorem ReadResponseBody_chunks (read_handler : Bool) (last : ReadResult)
    (hlast : last = .ok [] ∨ last = .fail) (rest : List ReadResult)
    (chunks : List (List Char)) (hpos : ∀ c ∈ chunks, 0 < c.length) (body : Option String) :
    ReadResponseBody (chunks.map .ok ++ last :: rest) body read_handler =
      some ⟨decide (last = .ok []),
        body.map (fun b => b ++ ⟨chunks.flatten⟩),
        if read_handler then
          chunkCalls (List.replicate kBufSize '\x00') chunks ++
            [if last = .ok [] then
              ⟨some (bufAfter (List.replicate kBufSize '\x00') chunks), 0⟩
            else ⟨none, -1⟩]
        else [],
        rest⟩ := by
  rw [ReadResponseBody, ReadResponseBody.loop_chunks read_handler last hlast rest chunks hpos]
  rcases hlast with h | h <;> subst h <;> cases read_handler <;> simp

theorem chunkCalls_length (chunks : List (List Char)) :
    ∀ buf : List Char, (chunkCalls buf chunks).length = chunks.length := by
  induction chunks with
  | nil => intro buf; rfl
  | cons c cs ih => intro buf; simp [chunkCalls, ih]

theorem chunkCalls_delivered (chunks : List (List Char))
    (hsize : ∀ c ∈ chunks, c.length ≤ kBufSize) :
    ∀ buf : List Char,
      (chunkCalls buf chunks).map (fun c => (c.bytes_read, c.delivered)) =
        chunks.map (fun c => ((c.length : Int), c)) := by
  induction chunks with
  | nil => intro buf; rfl
  | cons c cs ih =>
    intro buf
    have hc : c.length ≤ kBufSize := hsize c (List.mem_cons_self _ _)
    have hcs : ∀ d ∈ cs, d.length ≤ kBufSize := fun d hd => hsize d (List.mem_cons_of_mem _ hd)
    rw [chunkCalls, List.map_cons, List.map_cons, ih hcs]
    simp [HandlerCall.delivered, toInt32_of_le_kBufSize c.length hc, List.take_left]

theorem chunkCalls_data (chunks : List (List Char)) :
    ∀ (buf : List Char), ∀ c ∈ chunkCalls buf chunks, c.data ≠ none := by
  induction chunks with
  | nil => intro buf c hc; simp [chunkCalls] at hc
  | cons d ds ih =>
    intro buf c hc
    simp only [chunkCalls, List.mem_cons] at hc
    rcases hc with h | h
    · subst h; simp
    · exact ih _ c h

theorem chunkCalls_pos (chunks : List (List Char))
    (hchunks : ∀ c ∈ chunks, 0 < c.length ∧ c.length ≤ kBufSize) (buf : List Char) :
    ∀ c ∈ chunkCalls buf chunks, 0 < c.bytes_read := by
  intro c hc
  have hmap := chunkCalls_delivered chunks (fun c hc => (hchunks c hc).2) buf
  have hc3 : (c.bytes_read, c.delivered) ∈
      (chunkCalls buf chunks).map (fun c => (c.bytes_read, c.delivered)) :=
    List.mem_map_of_mem _ hc
  rw [hmap] at hc3
  obtain ⟨d, hd, hd2⟩ := List.mem_map.mp hc3
  have := (hchunks d hd).1
  have h3 : c.bytes_read = (d.length : Int) := (congrArg Prod.fst hd2).symm
  omega

/-- When the steps of `Start` before the body succeed, `Start` is the body loop
followed by the check of its result. -/
theorem HttpRequest.Start_of_headers (tokenize : String → List String) (req : HttpRequest)
    (t : Transport) (code : Int) (hs : Headers)
    (hbody : req.body_.length ≤ 2 ^ 32 - 1) (hsend : t.send_ok = true)
    (hstatus : t.status_code = some code)
    (hhdr : ReadResponseHeaders tokenize t Headers.mk0 = .ok (true, hs)) :
    req.Start tokenize t =
      (ReadResponseBody t.reads
        (if req.load_flags_.flags &&& LoadFlags.DoNotSaveResponseBody ≠ 0 then none else some "")
        req.read_response_handler_).map (fun r =>
          if !r.success then ⟨r.calls, r.reads_left, .error (.check "complete")⟩
          else ⟨r.calls, r.reads_left, .ok ⟨code, hs, r.response_body.getD ""⟩⟩) := by
  unfold HttpRequest.Start
  simp only [hbody, decide_True, Bool.not_true, Bool.and_false, hsend, hstatus, hhdr]
  cases ReadResponseBody t.reads
      (if req.load_flags_.flags &&& LoadFlags.DoNotSaveResponseBody ≠ 0 then none else some "")
      req.read_response_handler_ with
  | none => simp
  | some r => cases hr : r.success <;> simp [hr]

/-- `Start` on a stream of non-empty chunks ended by a 0-byte read. -/
theorem HttpRequest.Start_stream_ok (tokenize : String → List String) (req : HttpRequest)
    (t : Transport) (code : Int) (hs : Headers) (chunks : List (List Char))
    (hbody : req.body_.length ≤ 2 ^ 32 - 1) (hsend : t.send_ok = true)
    (hstatus : t.status_code = some code)
    (hhdr : ReadResponseHeaders tokenize t Headers.mk0 = .ok (true, hs))
    (hpos : ∀ c ∈ chunks, 0 < c.length)
    (hreads : t.reads = chunks.map .ok ++ [.ok []]) :
    req.Start tokenize t = some
      ⟨if req.read_response_handler_ then
          chunkCalls (List.replicate kBufSize '\x00') chunks ++
            [⟨some (bufAfter (List.replicate kBufSize '\x00') chunks), 0⟩]
        else [],
        [],
        .ok ⟨code, hs,
          if req.load_flags_.flags &&& LoadFlags.DoNotSaveResponseBody ≠ 0 then ""
          else ⟨chunks.flatten⟩⟩⟩ := by
  rw [HttpRequest.Start_of_headers tokenize req t code hs hbody hsend hstatus hhdr, hreads,
    ReadResponseBody_chunks req.read_response_handler_ (.ok []) (Or.inl rfl) [] chunks hpos]
  by_cases hf : req.load_flags_.flags &&& LoadFlags.DoNotSaveResponseBody = 0
  · simp [hf, String.ext_iff]
  · simp [hf]

/-- `Start` on a stream of non-empty chunks ended by a failed read. -/
theorem HttpRequest.Start_stream_fail (tokenize : String → List String) (req : HttpRequest)
    (t : Transport) (code : Int) (hs : Headers) (chunks : List (List Char))
    (hbody : req.body_.length ≤ 2 ^ 32 - 1) (hsend : t.send_ok = true)
    (hstatus : t.status_code = some code)
    (hhdr : ReadResponseHeaders tokenize t Headers.mk0 = .ok (true, hs))
    (hpos : ∀ c ∈ chunks, 0 < c.length)
    (hreads : t.reads = chunks.map .ok ++ [.fail]) :
    req.Start tokenize t = some
      ⟨if req.read_response_handler_ then
          chunkCalls (List.replicate kBufSize '\x00') chunks ++ [⟨none, -1⟩]
        else [],
        [],
        .error (.check "complete")⟩ := by
  rw [HttpRequest.Start_of_headers tokenize req t code hs hbody hsend hstatus hhdr, hreads,
    ReadResponseBody_chunks req.read_response_handler_ .fail (Or.inr rfl) [] chunks hpos]
  simp

/-- C1. Body streaming, success path: when `Start` reaches the body and the
transport answers the reads with the non-empty chunks `c1..cn` (each at most the
buffer size) and then a successful 0-byte read, a registered handler is called
exactly `n + 1` times: call `i` has `bytes_read = |ci| > 0` and hands over `ci`
through a non-null pointer, in transport order, the last call has
`bytes_read = 0`, and the bytes handed over, concatenated, are `c1 ++ ... ++ cn`. -/
theorem C1_handler_receives_chunks_then_zero (tokenize : String → List String)
    (req : HttpRequest) (t : Transport) (code : Int) (hs : Headers)
    (chunks : List (List Char))
    (hhandler : req.read_response_handler_ = true)
    (hbody : req.body_.length ≤ 2 ^ 32 - 1) (hsend : t.send_ok = true)
    (hstatus : t.status_code = some code)
    (hhdr : ReadResponseHeaders tokenize t Headers.mk0 = .ok (true, hs))
    (hchunks : ∀ c ∈ chunks, 0 < c.length ∧ c.length ≤ kBufSize)
    (hreads : t.reads = chunks.map .ok ++ [.ok []]) :
    ∃ r, req.Start tokenize t = some r ∧
      r.calls.length = chunks.length + 1 ∧
      r.calls.map (fun c => (c.bytes_read, c.delivered)) =
        chunks.map (fun c => ((c.length : Int), c)) ++ [(0, [])] ∧
      (∀ c ∈ r.calls.dropLast, 0 < c.bytes_read) ∧
      (∀ c ∈ r.calls, c.data ≠ none) ∧
      (r.calls.map HandlerCall.delivered).flatten = chunks.flatten := by
  have hpos : ∀ c ∈ chunks, 0 < c.length := fun c hc => (hchunks c hc).1
  have hsize : ∀ c ∈ chunks, c.length ≤ kBufSize := fun c hc => (hchunks c hc).2
  have hmap := chunkCalls_delivered chunks hsize (List.replicate kBufSize '\x00')
  rw [HttpRequest.Start_stream_ok tokenize req t code hs chunks hbody hsend hstatus hhdr hpos
    hreads, hhandler]
  simp only [if_true]
  refine ⟨_, rfl, ?_, ?_, ?_, ?_, ?_⟩
  · simp [chunkCalls_length]
  · rw [List.map_append, hmap]
    simp [HandlerCall.delivered]
  · intro c hc
    exact chunkCalls_pos chunks hchunks _ c (by simpa using hc)
  · intro c hc
    rcases List.mem_append.mp hc with h | h
    · exact chunkCalls_data chunks _ c h
    · rw [List.mem_singleton.mp h]; simp
  · have h2 := congrArg (fun l => (l.map Prod.snd).flatten) hmap
    simp only [List.map_map] at h2
    rw [List.map_append, List.flatten_append]
    simpa [HandlerCall.delivered, Function.comp_def] using h2

theorem C1_handler_receives_chunks_then_zero_witness :
    ∃ r, exampleRequest.SetReadResponseHandler.Start Tokenizer
        (exampleTransport [.ok "ab".data, .ok "c".data, .ok []]) = some r ∧
      r.calls.length = ["ab".data, "c".data].length + 1 ∧
      r.calls.map (fun c => (c.bytes_read, c.delivered)) =
        ["ab".data, "c".data].map (fun c => ((c.length : Int), c)) ++ [(0, [])] ∧
      (∀ c ∈ r.calls.dropLast, 0 < c.bytes_read) ∧
      (∀ c ∈ r.calls, c.data ≠ none) ∧
      (r.calls.map HandlerCall.delivered).flatten = ["ab".data, "c".data].flatten :=
  C1_handler_receives_chunks_then_zero Tokenizer exampleRequest.SetReadResponseHandler
    (exampleTransport [.ok "ab".data, .ok "c".data, .ok []]) 200
    ⟨[("Content-Type", "application/json"), ("Server", "nginx")]⟩ ["ab".data, "c".data]
    (by decide) (by decide) (by decide) (by decide) (by decide) (by decide) (by decide)

/-- C2. Body retention: when `Start` reaches the body and the transport answers
the reads with the non-empty chunks `c1..cn` and then a successful 0-byte read,
`Start` returns a response whose body is empty if `load_flags_` has the
`DoNotSaveResponseBody` bit set, and is `c1 ++ ... ++ cn` otherwise. -/
theorem C2_body_retention (tokenize : String → List String)
    (req : HttpRequest) (t : Transport) (code : Int) (hs : Headers)
    (chunks : List (List Char))
    (hbody : req.body_.length ≤ 2 ^ 32 - 1) (hsend : t.send_ok = true)
    (hstatus : t.status_code = some code)
    (hhdr : ReadResponseHeaders tokenize t Headers.mk0 = .ok (true, hs))
    (hchunks : ∀ c ∈ chunks, 0 < c.length)
    (hreads : t.reads = chunks.map .ok ++ [.ok []]) :
    ∃ r resp, req.Start tokenize t = some r ∧ r.result = .ok resp ∧
      (req.load_flags_.flags &&& LoadFlags.DoNotSaveResponseBody ≠ 0 → resp.text = "") ∧
      (req.load_flags_.flags &&& LoadFlags.DoNotSaveResponseBody = 0 →
        resp.text = ⟨chunks.flatten⟩) := by
  rw [HttpRequest.Start_stream_ok tokenize req t code hs chunks hbody hsend hstatus hhdr hchunks
    hreads]
  refine ⟨_, _, rfl, rfl, ?_, ?_⟩
  · intro h; simp [h]
  · intro h; simp [h]

theorem C2_body_retention_witness :
    ∃ r resp, (exampleRequest.SetLoadFlags
        (LoadFlags.ofFlags LoadFlags.DoNotSaveResponseBody)).Start Tokenizer
          (exampleTransport [.ok "\x7b\"a\":".data, .ok "1\x7d".data, .ok []]) = some r ∧
      r.result = .ok resp ∧
      ((exampleRequest.SetLoadFlags (LoadFlags.ofFlags LoadFlags.DoNotSaveResponseBody)).load_flags_.flags
          &&& LoadFlags.DoNotSaveResponseBody ≠ 0 → resp.text = "") ∧
      ((exampleRequest.SetLoadFlags (LoadFlags.ofFlags LoadFlags.DoNotSaveResponseBody)).load_flags_.flags
          &&& LoadFlags.DoNotSaveResponseBody = 0 →
        resp.text = ⟨["\x7b\"a\":".data, "1\x7d".data].flatten⟩) :=
  C2_body_retention Tokenizer
    (exampleRequest.SetLoadFlags (LoadFlags.ofFlags LoadFlags.DoNotSaveResponseBody))
    (exampleTransport [.ok "\x7b\"a\":".data, .ok "1\x7d".data, .ok []]) 200
    ⟨[("Content-Type", "application/json"), ("Server", "nginx")]⟩
    ["\x7b\"a\":".data, "1\x7d".data]
    (by decide) (by decide) (by decide) (by decide) (by decide) (by decide)

/-- C3. Body streaming, error path: when `Start` reaches the body and the
transport answers the reads with the non-empty chunks `c1..cn` (each at most the
buffer size) and then a failed read, a registered handler is called `n + 1`
times: the first `n` calls hand over `c1..cn` with `bytes_read = |ci| > 0`, the
last call is `read_handler(nullptr, -1)`, no call has `bytes_read = 0`, and
`Start` ends in a failure, not a response. -/
theorem C3_handler_receives_error (tokenize : String → List String)
    (req : HttpRequest) (t : Transport) (code : Int) (hs : Headers)
    (chunks : List (List Char))
    (hhandler : req.read_response_handler_ = true)
    (hbody : req.body_.length ≤ 2 ^ 32 - 1) (hsend : t.send_ok = true)
    (hstatus : t.status_code = some code)
    (hhdr : ReadResponseHeaders tokenize t Headers.mk0 = .ok (true, hs))
    (hchunks : ∀ c ∈ chunks, 0 < c.length ∧ c.length ≤ kBufSize)
    (hreads : t.reads = chunks.map .ok ++ [.fail]) :
    ∃ r, req.Start tokenize t = some r ∧
      r.calls.length = chunks.length + 1 ∧
      r.calls.dropLast.map (fun c => (c.bytes_read, c.delivered)) =
        chunks.map (fun c => ((c.length : Int), c)) ∧
      (∀ c ∈ r.calls.dropLast, 0 < c.bytes_read ∧ c.data ≠ none) ∧
      r.calls.getLast? = some ⟨none, -1⟩ ∧
      (∀ c ∈ r.calls, c.bytes_read ≠ 0) ∧
      r.result = .error (.check "complete") ∧
      (∀ resp, r.result ≠ .ok resp) := by
  have hpos : ∀ c ∈ chunks, 0 < c.length := fun c hc => (hchunks c hc).1
  have hsize : ∀ c ∈ chunks, c.length ≤ kBufSize := fun c hc => (hchunks c hc).2
  have hmap := chunkCalls_delivered chunks hsize (List.replicate kBufSize '\x00')
  have hcp := chunkCalls_pos chunks hchunks (List.replicate kBufSize '\x00')
  rw [HttpRequest.Start_stream_fail tokenize req t code hs chunks hbody hsend hstatus hhdr hpos
    hreads, hhandler]
  simp only [if_true]
  refine ⟨_, rfl, ?_, ?_, ?_, ?_, ?_, rfl, ?_⟩
  · simp [chunkCalls_length]
  · simpa using hmap
  · intro c hc
    have hc2 : c ∈ chunkCalls (List.replicate kBufSize '\x00') chunks := by simpa using hc
    exact ⟨hcp c hc2, chunkCalls_data chunks _ c hc2⟩
  · simp
  · intro c hc
    rcases List.mem_append.mp hc with h | h
    · have := hcp c h
      omega
    · rw [List.mem_singleton.mp h]; simp
  · intro resp h
    cases h

theorem C3_handler_receives_error_witness :
    ∃ r, exampleRequest.SetReadResponseHandler.Start Tokenizer
        (exampleTransport [.ok "ab".data, .ok "c".data, .fail]) = some r ∧
      r.calls.length = ["ab".data, "c".data].length + 1 ∧
      r.calls.dropLast.map (fun c => (c.bytes_read, c.delivered)) =
        ["ab".data, "c".data].map (fun c => ((c.length : Int), c)) ∧
      (∀ c ∈ r.calls.dropLast, 0 < c.bytes_read ∧ c.data ≠ none) ∧
      r.calls.getLast? = some ⟨none, -1⟩ ∧
      (∀ c ∈ r.calls, c.bytes_read ≠ 0) ∧
      r.result = .error (.check "complete") ∧
      (∀ resp, r.result ≠ .ok resp) :=
  C3_handler_receives_error Tokenizer exampleRequest.SetReadResponseHandler
    (exampleTransport [.ok "ab".data, .ok "c".data, .fail]) 200
    ⟨[("Content-Type", "application/json"), ("Server", "nginx")]⟩ ["ab".data, "c".data]
    (by decide) (by decide) (by decide) (by decide) (by decide) (by decide) (by decide)

/-! ## The order of header names -/

theorem char_eq_of_toNat_eq (a b : Char) (h : a.toNat = b.toNat) : a = b := by
  apply Char.ext
  apply UInt32.ext
  exact h

theorem lessChars_irrefl (a : List Char) : lessChars a a = false := by
  induction a with
  | nil => rfl
  | cons c cs ih => simp [lessChars, ih]

theorem lessChars_total :
    ∀ a b : List Char, lessChars a b = false → lessChars b a = false → a = b := by
  intro a
  induction a with
  | nil =>
    intro b h1 _
    cases b with
    | nil => rfl
    | cons d ds => simp [lessChars] at h1
  | cons c cs ih =>
    intro b h1 h2
    cases b with
    | nil => simp [lessChars] at h2
    | cons d ds =>
      simp only [lessChars] at h1 h2
      by_cases hcd : c.toNat < d.toNat
      · simp [hcd] at h1
      · by_cases hdc : d.toNat < c.toNat
        · simp [hdc] at h2
        · simp only [hcd, hdc, if_false] at h1 h2
          have : c = d := char_eq_of_toNat_eq c d (by omega)
          rw [this, ih ds h1 h2]

theorem lessChars_trans :
    ∀ a b c : List Char, lessChars a b = true → lessChars b c = true → lessChars a c = true := by
  intro a
  induction a with
  | nil =>
    intro b c h1 h2
    cases c with
    | nil => cases b <;> simp [lessChars] at h2
    | cons e es => simp [lessChars]
  | cons x xs ih =>
    intro b c h1 h2
    cases b with
    | nil => simp [lessChars] at h1
    | cons y ys =>
      cases c with
      | nil => simp [lessChars] at h2
      | cons z zs =>
        simp only [lessChars] at h1 h2 ⊢
        by_cases hxy : x.toNat < y.toNat
        · by_cases hyz : y.toNat < z.toNat
          · have : x.toNat < z.toNat := by omega
            simp [this]
          · by_cases hzy : z.toNat < y.toNat
            · simp [hyz, hzy] at h2
            · have : x.toNat < z.toNat := by omega
              simp [this]
        · by_cases hyx : y.toNat < x.toNat
          · simp [hxy, hyx] at h1
          · simp only [hxy, hyx, if_false] at h1
            by_cases hyz : y.toNat < z.toNat
            · have : x.toNat < z.toNat := by omega
              simp [this]
            · by_cases hzy : z.toNat < y.toNat
              · simp [hyz, hzy] at h2
              · simp only [hyz, hzy, if_false] at h2
                have h3 : ¬ x.toNat < z.toNat := by omega
                have h4 : ¬ z.toNat < x.toNat := by omega
                simp only [h3, h4, if_false]
                exact ih ys zs h1 h2

theorem less_irrefl (a : String) : less a a = false :=
  lessChars_irrefl a.data

theorem less_total (a b : String) (h1 : less a b = false) (h2 : less b a = false) : a = b :=
  String.ext (lessChars_total a.data b.data h1 h2)

theorem less_trans (a b c : String) (h1 : less a b = true) (h2 : less b c = true) :
    less a c = true :=
  lessChars_trans a.data b.data c.data h1 h2

theorem less_ne (a b : String) (h : less a b = true) : a ≠ b := by
  intro hab
  rw [hab, less_irrefl] at h
  cases h

/-! ## Headers -/

theorem Headers.find_cons (k v name : String) (l : List (String × String)) :
    (((k, v) :: l).find? (fun kv => kv.1 == name)).map (·.2) =
      if k = name then some v else (l.find? (fun kv => kv.1 == name)).map (·.2) := by
  rw [List.find?_cons]
  by_cases h : k = name
  · have hb : ((k, v).1 == name) = true := by simpa using h
    rw [hb, if_pos h]; rfl
  · have hb : ((k, v).1 == name) = false := by simpa using h
    rw [hb, if_neg h]

theorem Headers.find_insertEntry (key value name : String) (l : List (String × String)) :
    ((Headers.insertEntry key value l).find? (fun kv => kv.1 == name)).map (·.2) =
      if key = name then some value else (l.find? (fun kv => kv.1 == name)).map (·.2) := by
  induction l with
  | nil =>
    rw [Headers.insertEntry, Headers.find_cons]
  | cons e rest ih =>
    obtain ⟨k, v⟩ := e
    rw [Headers.insertEntry]
    by_cases h1 : less key k = true
    · rw [if_pos h1, Headers.find_cons]
    · rw [if_neg h1]
      by_cases h2 : less k key = true
      · have hne : k ≠ key := less_ne k key h2
        rw [if_pos h2, Headers.find_cons, Headers.find_cons, ih]
        by_cases hk : k = name
        · have : key ≠ name := fun h => hne (hk.trans h.symm)
          rw [if_pos hk, if_neg this, if_pos hk]
        · rw [if_neg hk, if_neg hk]
      · have hk : key = k :=
          less_total key k (by simpa using h1) (by simpa using h2)
        rw [if_neg h2, Headers.find_cons, Headers.find_cons, ← hk]
        by_cases h : key = name
        · rw [if_pos h, if_pos h]
        · rw [if_neg h, if_neg h, if_neg h]

theorem Headers.GetHeader_SetHeader (h : Headers) (key value name : String) :
    (h.SetHeader key value).GetHeader name =
      if key = name then some value else h.GetHeader name :=
  Headers.find_insertEntry key value name h.headers_

theorem Headers.GetHeader_foldl (pairs : List (String × String)) (name : String) :
    ∀ h : Headers, (pairs.foldl (fun h p => h.SetHeader p.1 p.2) h).GetHeader name =
      match pairs.reverse.find? (fun p => p.1 == name) with
      | some p => some p.2
      | none => h.GetHeader name := by
  induction pairs with
  | nil => intro h; rfl
  | cons p ps ih =>
    intro h
    rw [List.foldl_cons, ih, List.reverse_cons, List.find?_append]
    cases hps : ps.reverse.find? (fun p => p.1 == name) with
    | some q => rfl
    | none =>
      rw [Option.none_or, List.find?_cons, Headers.GetHeader_SetHeader]
      by_cases hp : p.1 = name
      · have hb : (p.1 == name) = true := by simpa using hp
        rw [hb, if_pos hp]
      · have hb : (p.1 == name) = false := by simpa using hp
        rw [hb, if_neg hp]; rfl

/-! ## Header parsing -/

theorem findChars_eq_none_iff (delim : List Char) :
    ∀ s : List Char, findChars delim s = none ↔ ¬ delim <:+: s := by
  intro s
  induction s with
  | nil =>
    cases delim with
    | nil => simp [findChars]
    | cons d ds => simp [findChars]
  | cons c cs ih =>
    rw [findChars, List.infix_cons_iff]
    by_cases hp : delim.isPrefixOf (c :: cs) = true
    · have hp2 : delim <+: c :: cs := List.isPrefixOf_iff_prefix.mp hp
      simp [hp, hp2]
    · have hp2 : ¬ delim <+: c :: cs := fun h => hp (List.isPrefixOf_iff_prefix.mpr h)
      simp only [hp, if_false, Option.map_eq_none', ih, hp2, false_or, Bool.false_eq_true]

theorem SplitHeaderLine_of_not_infix (line : String) (h : ¬ ": ".data <:+: line.data) :
    SplitHeaderLine line = .error (.check "pos != kbase::StringView::npos") := by
  have hf : find line ": " = none := (findChars_eq_none_iff _ _).mpr h
  simp only [SplitHeaderLine, hf]

theorem SplitHeaderLine_of_infix (line : String) (h : ": ".data <:+: line.data) :
    ∃ p, SplitHeaderLine line = .ok p := by
  cases hf : find line ": " with
  | none => exact absurd h ((findChars_eq_none_iff _ _).mp hf)
  | some pos =>
    exact ⟨(substr line 0 pos, substrFrom line (pos + ": ".length)), by
      simp only [SplitHeaderLine, hf]⟩

theorem SplitHeaderLine_error (line : String) (e : Failure)
    (h : SplitHeaderLine line = .error e) :
    e = .check "pos != kbase::StringView::npos" := by
  cases hf : find line ": " with
  | none =>
    simp only [SplitHeaderLine, hf] at h
    cases h; rfl
  | some pos =>
    simp only [SplitHeaderLine, hf] at h
    cases h

theorem ReadResponseHeaders.loop_ok (lines : List String)
    (hlines : ∀ line ∈ lines, ": ".data <:+: line.data) :
    ∃ pairs : List (String × String),
      List.Forall₂ (fun line p => SplitHeaderLine line = .ok p) lines pairs ∧
      ∀ headers : Headers, ReadResponseHeaders.loop lines headers =
        .ok (pairs.foldl (fun h p => h.SetHeader p.1 p.2) headers) := by
  induction lines with
  | nil => exact ⟨[], List.Forall₂.nil, fun _ => rfl⟩
  | cons line rest ih =>
    obtain ⟨p, hp⟩ := SplitHeaderLine_of_infix line (hlines line (List.mem_cons_self _ _))
    obtain ⟨ps, hps, hloop⟩ := ih (fun l hl => hlines l (List.mem_cons_of_mem _ hl))
    refine ⟨p :: ps, List.Forall₂.cons hp hps, fun headers => ?_⟩
    rw [ReadResponseHeaders.loop, hp]
    exact hloop _

theorem ReadResponseHeaders.loop_malformed (lines : List String) (bad : String)
    (hmem : bad ∈ lines) (hbad : ¬ ": ".data <:+: bad.data) :
    ∀ headers : Headers, ReadResponseHeaders.loop lines headers =
      .error (.check "pos != kbase::StringView::npos") := by
  induction lines with
  | nil => cases hmem
  | cons line rest ih =>
    intro headers
    rw [ReadResponseHeaders.loop]
    cases hs : SplitHeaderLine line with
    | error e => rw [SplitHeaderLine_error line e hs]
    | ok p =>
      rcases List.mem_cons.mp hmem with h | h
      · rw [← h, SplitHeaderLine_of_not_infix bad hbad] at hs
        cases hs
      · exact ih h _

/-- The headers of a response `Start` returns are the ones `ReadResponseHeaders` built. -/
theorem HttpRequest.Start_headers (tokenize : String → List String) (req : HttpRequest)
    (t : Transport) (r : StartResult) (resp : HttpResponse)
    (hstart : req.Start tokenize t = some r) (hres : r.result = .ok resp) :
    ReadResponseHeaders tokenize t Headers.mk0 = .ok (true, resp.headers) := by
  unfold HttpRequest.Start at hstart
  split at hstart
  · cases hstart; cases hres
  · split at hstart
    · cases hstart; cases hres
    · split at hstart
      · cases hstart; cases hres
      · split at hstart
        · cases hstart; cases hres
        · rename_i complete response_headers hh
          split at hstart
          · cases hstart; cases hres
          · rename_i hc
            simp only [Bool.not_eq_true, Bool.not_eq_false] at hc
            simp only [] at hstart
            generalize (if req.load_flags_.flags &&& LoadFlags.DoNotSaveResponseBody ≠ 0
              then none else some "" : Option String) = body_ptr at hstart
            cases hb : ReadResponseBody t.reads body_ptr req.read_response_handler_ with
            | none => rw [hb] at hstart; cases hstart
            | some b =>
              rw [hb] at hstart
              simp only [] at hstart
              split at hstart
              · cases hstart; cases hres
              · cases hstart
                cases hres
                have hc2 : complete = true := by simpa using hc
                rw [hh, hc2]

/-- C4. Response header parsing: when every line after the first of the header
block contains `": "`, every such line splits, and the headers built by
`ReadResponseHeaders` (and returned by `Start`) are the result of `SetHeader(name,
value)` applied in line order to the splits of the lines after the first; the
first line is not used, and under each name the value of the last line with
that name is kept. -/
theorem C4_response_headers (tokenize : String → List String) (t : Transport)
    (hsize : t.insufficient_buffer = true)
    (hlines : ∀ line ∈ (tokenize t.header_buf).tail, ": ".data <:+: line.data) :
    ∃ pairs : List (String × String),
      List.Forall₂ (fun line p => SplitHeaderLine line = .ok p)
        (tokenize t.header_buf).tail pairs ∧
      ReadResponseHeaders tokenize t Headers.mk0 =
        .ok (t.headers_ok, pairs.foldl (fun h p => h.SetHeader p.1 p.2) Headers.mk0) ∧
      (∀ (req : HttpRequest) (r : StartResult) (resp : HttpResponse),
        req.Start tokenize t = some r → r.result = .ok resp →
        resp.headers = pairs.foldl (fun h p => h.SetHeader p.1 p.2) Headers.mk0) ∧
      (∀ name : String,
        (pairs.foldl (fun h p => h.SetHeader p.1 p.2) Headers.mk0).GetHeader name =
          (pairs.reverse.find? (fun p => p.1 == name)).map (·.2)) := by
  obtain ⟨pairs, hpairs, hloop⟩ := ReadResponseHeaders.loop_ok _ hlines
  have hread : ReadResponseHeaders tokenize t Headers.mk0 =
      .ok (t.headers_ok, pairs.foldl (fun h p => h.SetHeader p.1 p.2) Headers.mk0) := by
    simp only [ReadResponseHeaders, hsize, hloop, Bool.not_true, Bool.false_eq_true, if_false]
  refine ⟨pairs, hpairs, hread, ?_, ?_⟩
  · intro req r resp hstart hres
    have h := HttpRequest.Start_headers tokenize req t r resp hstart hres
    rw [hread] at h
    simp only [Except.ok.injEq, Prod.mk.injEq] at h
    exact h.2.symm
  · intro name
    rw [Headers.GetHeader_foldl]
    cases pairs.reverse.find? (fun p => p.1 == name) with
    | some q => rfl
    | none => rfl

theorem C4_response_headers_witness :
    ∃ pairs : List (String × String),
      List.Forall₂ (fun line p => SplitHeaderLine line = .ok p)
        (Tokenizer repeatedHeaderTransport.header_buf).tail pairs ∧
      ReadResponseHeaders Tokenizer repeatedHeaderTransport Headers.mk0 =
        .ok (repeatedHeaderTransport.headers_ok,
          pairs.foldl (fun h p => h.SetHeader p.1 p.2) Headers.mk0) ∧
      (∀ (req : HttpRequest) (r : StartResult) (resp : HttpResponse),
        req.Start Tokenizer repeatedHeaderTransport = some r → r.result = .ok resp →
        resp.headers = pairs.foldl (fun h p => h.SetHeader p.1 p.2) Headers.mk0) ∧
      (∀ name : String,
        (pairs.foldl (fun h p => h.SetHeader p.1 p.2) Headers.mk0).GetHeader name =
          (pairs.reverse.find? (fun p => p.1 == name)).map (·.2)) :=
  C4_response_headers Tokenizer repeatedHeaderTransport (by decide) (by decide)

/-- The headers of the example answer: the status line, although it contains
`": "`, gives no entry, and `Set-Cookie` keeps the value of its last line. -/
theorem ReadResponseHeaders_repeated :
    ReadResponseHeaders Tokenizer repeatedHeaderTransport Headers.mk0 =
      .ok (true, ⟨[("Content-Type", "text/html"), ("Set-Cookie", "b=2")]⟩) := by
  decide

/-- C5. Malformed response header: when some line after the first of the header
block does not contain `": "`, `ReadResponseHeaders` fails (with the violated
check of `SplitHeaderLine` once the header block was obtained), and `Start`
ends in a failure without a response, having made no handler call and consumed
none of the body reads. -/
theorem C5_malformed_header_is_fatal (tokenize : String → List String)
    (req : HttpRequest) (t : Transport) (bad : String)
    (hmem : bad ∈ (tokenize t.header_buf).tail) (hbad : ¬ ": ".data <:+: bad.data) :
    (∃ e, ReadResponseHeaders tokenize t Headers.mk0 = .error e) ∧
    (t.insufficient_buffer = true →
      ReadResponseHeaders tokenize t Headers.mk0 =
        .error (.check "pos != kbase::StringView::npos")) ∧
    (∃ e, req.Start tokenize t = some ⟨[], t.reads, .error e⟩) ∧
    (req.body_.length ≤ 2 ^ 32 - 1 → t.send_ok = true → t.status_code ≠ none →
      t.insufficient_buffer = true →
      req.Start tokenize t =
        some ⟨[], t.reads, .error (.check "pos != kbase::StringView::npos")⟩) := by
  have hloop := ReadResponseHeaders.loop_malformed _ bad hmem hbad Headers.mk0
  have hread : ∃ e, ReadResponseHeaders tokenize t Headers.mk0 = .error e := by
    unfold ReadResponseHeaders
    cases t.insufficient_buffer with
    | false => exact ⟨_, rfl⟩
    | true =>
      exact ⟨.check "pos != kbase::StringView::npos", by
        simp only [hloop, Bool.not_true, Bool.false_eq_true, if_false]⟩
  have hread2 : t.insufficient_buffer = true →
      ReadResponseHeaders tokenize t Headers.mk0 =
        .error (.check "pos != kbase::StringView::npos") := by
    intro hsize
    simp only [ReadResponseHeaders, hsize, hloop, Bool.not_true, Bool.false_eq_true, if_false]
  obtain ⟨e, he⟩ := hread
  refine ⟨⟨e, he⟩, hread2, ?_, ?_⟩
  · unfold HttpRequest.Start
    split
    · exact ⟨_, rfl⟩
    · split
      · exact ⟨_, rfl⟩
      · split
        · exact ⟨_, rfl⟩
        · rw [he]
          exact ⟨_, rfl⟩
  · intro hbody hsend hstatus hsize
    obtain ⟨code, hcode⟩ := Option.ne_none_iff_exists'.mp hstatus
    unfold HttpRequest.Start
    simp only [hbody, decide_True, Bool.not_true, Bool.and_false, hsend, hcode, hread2 hsize,
      Bool.false_eq_true, if_false]

theorem C5_malformed_header_is_fatal_witness :
    (∃ e, ReadResponseHeaders Tokenizer malformedHeaderTransport Headers.mk0 = .error e) ∧
    (malformedHeaderTransport.insufficient_buffer = true →
      ReadResponseHeaders Tokenizer malformedHeaderTransport Headers.mk0 =
        .error (.check "pos != kbase::StringView::npos")) ∧
    (∃ e, exampleRequest.SetReadResponseHandler.Start Tokenizer malformedHeaderTransport =
      some ⟨[], malformedHeaderTransport.reads, .error e⟩) ∧
    (exampleRequest.SetReadResponseHandler.body_.length ≤ 2 ^ 32 - 1 →
      malformedHeaderTransport.send_ok = true → malformedHeaderTransport.status_code ≠ none →
      malformedHeaderTransport.insufficient_buffer = true →
      exampleRequest.SetReadResponseHandler.Start Tokenizer malformedHeaderTransport =
        some ⟨[], malformedHeaderTransport.reads,
          .error (.check "pos != kbase::StringView::npos")⟩) :=
  C5_malformed_header_is_fatal Tokenizer exampleRequest.SetReadResponseHandler
    malformedHeaderTransport "X-Empty:" (by decide) (by decide)

/-! ## Content of a request -/

theorem takeWhile_append_stop {α : Type} (p : α → Bool) (a : List α) (c : α) (r : List α)
    (ha : ∀ x ∈ a, p x = true) (hc : p c = false) :
    (a ++ c :: r).takeWhile p = a := by
  induction a with
  | nil => simp [List.takeWhile, hc]
  | cons x xs ih =>
    have hx : p x = true := ha x (List.mem_cons_self _ _)
    rw [List.cons_append, List.takeWhile_cons, hx]
    simp only [if_true]
    rw [ih (fun y hy => ha y (List.mem_cons_of_mem _ hy))]

theorem headerName_multipart (boundary : String) :
    headerName ("Content-Type: multipart/form-data; boundary=" ++ boundary ++ "\r\n") =
      "Content-Type" := by
  have hlit : ("Content-Type: multipart/form-data; boundary=" : String).data =
      "Content-Type".data ++ ':' :: " multipart/form-data; boundary=".data := by decide
  apply String.ext
  simp only [headerName, String.data_append, hlit, List.append_assoc, List.cons_append]
  exact takeWhile_append_stop (fun c => c != ':') "Content-Type".data ':' _
    (by decide) (by decide)

theorem ContentCall.content_name (reserved : Char → Bool) (call : ContentCall) :
    headerName (call.content reserved).1 = "Content-Type" := by
  cases call with
  | SetPayload payload =>
    show headerName "Content-Type: application/x-www-form-urlencoded\r\n" = "Content-Type"
    decide
  | SetJSON json =>
    show headerName "Content-Type: application/json\r\n" = "Content-Type"
    decide
  | SetMultipart boundary multipart => exact headerName_multipart boundary

theorem ContentCall.run_eq (ndebug : Bool) (reserved : Char → Bool) (req : HttpRequest)
    (call : ContentCall) :
    call.run ndebug reserved req = req.SetContent ndebug (call.content reserved) := by
  cases call <;> rfl

theorem RequestHandle.any_eq_false_iff (lines : List (String × String)) (name : String) :
    lines.any (fun e => e.1 == name) = false ↔ ∀ e ∈ lines, e.1 ≠ name := by
  simp [List.any_eq_false]

theorem RequestHandle.header_append_new (lines : List (String × String)) (name line : String)
    (hnew : ∀ e ∈ lines, e.1 ≠ name) :
    (⟨lines ++ [(name, line)]⟩ : RequestHandle).header name = some line := by
  unfold RequestHandle.header
  induction lines with
  | nil => simp [List.find?_cons]
  | cons e es ih =>
    have he : (e.1 == name) = false := by simpa using hnew e (List.mem_cons_self _ _)
    rw [List.cons_append, List.find?_cons, he]
    exact ih (fun x hx => hnew x (List.mem_cons_of_mem _ hx))

theorem RequestHandle.header_replace (lines : List (String × String)) (name line : String)
    (hold : lines.any (fun e => e.1 == name) = true) :
    (⟨lines.map (fun e => if e.1 == name then (name, line) else e)⟩ : RequestHandle).header
      name = some line := by
  unfold RequestHandle.header
  induction lines with
  | nil => simp at hold
  | cons e es ih =>
    rw [List.map_cons, List.find?_cons]
    by_cases he : (e.1 == name) = true
    · simp [he]
    · have he2 : (e.1 == name) = false := by simpa using he
      rw [List.any_cons, he2, Bool.false_or] at hold
      simp only [he2, Bool.false_eq_true, if_false]
      exact ih hold

/-- `ADD | REPLACE` never fails and leaves the line as the only one of its name. -/
theorem HttpAddRequestHeadersW_replace (request : RequestHandle) (line : String) :
    ∃ h, HttpAddRequestHeadersW request line .ADD_REPLACE = some h ∧
      h.header (headerName line) = some line ∧
      ∀ e ∈ h.lines, e.1 = headerName line → e.2 = line := by
  unfold HttpAddRequestHeadersW
  by_cases hany : request.lines.any (fun e => e.1 == headerName line) = true
  · refine ⟨_, by simp only [hany, if_true], RequestHandle.header_replace _ _ _ hany, ?_⟩
    intro e he hname
    obtain ⟨e0, _, he0⟩ := List.mem_map.mp he
    by_cases h0 : (e0.1 == headerName line) = true
    · rw [if_pos h0] at he0
      rw [← he0]
    · rw [if_neg h0] at he0
      rw [← he0] at hname
      exact absurd (by simpa using hname) h0
  · have hany2 : request.lines.any (fun e => e.1 == headerName line) = false :=
      Bool.eq_false_iff.mpr hany
    have hnew := (RequestHandle.any_eq_false_iff _ _).mp hany2
    refine ⟨_, by simp only [hany2, Bool.false_eq_true, if_false],
      RequestHandle.header_append_new _ _ _ hnew, ?_⟩
    intro e he hname
    rcases List.mem_append.mp he with h | h
    · exact absurd hname (hnew e h)
    · rw [List.mem_singleton.mp h]

theorem RequestHandle.header_eq_none_iff (request : RequestHandle) (name : String) :
    request.header name = none ↔ request.lines.any (fun e => e.1 == name) = false := by
  unfold RequestHandle.header
  rw [Option.map_eq_none', List.find?_eq_none, List.any_eq_false]

theorem RequestHandle.any_of_header (request : RequestHandle) (name line : String)
    (h : request.header name = some line) :
    request.lines.any (fun e => e.1 == name) = true := by
  by_contra hc
  have hc2 : request.lines.any (fun e => e.1 == name) = false := Bool.eq_false_iff.mpr hc
  rw [(RequestHandle.header_eq_none_iff request name).mpr hc2] at h
  cases h

/-- With `NDEBUG` a content call never fails and installs its body and content type. -/
theorem ContentCall.run_release (reserved : Char → Bool) (req : HttpRequest)
    (call : ContentCall) :
    ∃ req', call.run true reserved req = .ok req' ∧
      req'.body_ = (call.content reserved).2 ∧
      req'.request_.header "Content-Type" = some (call.content reserved).1 ∧
      ∀ e ∈ req'.request_.lines, e.1 = "Content-Type" → e.2 = (call.content reserved).1 := by
  obtain ⟨h, hadd, hhdr, hall⟩ :=
    HttpAddRequestHeadersW_replace req.request_ (call.content reserved).1
  rw [ContentCall.content_name] at hhdr hall
  refine ⟨{ req with request_ := h, body_ := (call.content reserved).2 }, ?_, rfl, hhdr, hall⟩
  rw [ContentCall.run_eq]
  simp only [HttpRequest.SetContent, SetContentHeader, if_true, hadd]

/-- Without `NDEBUG` a content call on a handle that has a `Content-Type` header throws. -/
theorem ContentCall.run_debug_rejected (reserved : Char → Bool) (req : HttpRequest)
    (call : ContentCall) (line : String) (h : req.request_.header "Content-Type" = some line) :
    call.run false reserved req = .error (.thrown "HttpAddRequestHeadersW") := by
  have hany := RequestHandle.any_of_header _ _ _ h
  rw [ContentCall.run_eq]
  simp only [HttpRequest.SetContent, SetContentHeader, HttpAddRequestHeadersW,
    ContentCall.content_name, hany, if_true, Bool.false_eq_true, if_false]

/-- Without `NDEBUG` a content call on a handle without a `Content-Type` header
installs its body and content type. -/
theorem ContentCall.run_debug_new (reserved : Char → Bool) (req : HttpRequest)
    (call : ContentCall) (h : req.request_.header "Content-Type" = none) :
    ∃ req', call.run false reserved req = .ok req' ∧
      req'.body_ = (call.content reserved).2 ∧
      req'.request_.header "Content-Type" = some (call.content reserved).1 ∧
      ∀ e ∈ req'.request_.lines, e.1 = "Content-Type" → e.2 = (call.content reserved).1 := by
  have hany := (RequestHandle.header_eq_none_iff _ _).mp h
  have hnew := (RequestHandle.any_eq_false_iff _ _).mp hany
  refine ⟨{ req with
      request_ := ⟨req.request_.lines ++ [("Content-Type", (call.content reserved).1)]⟩,
      body_ := (call.content reserved).2 }, ?_, rfl,
    RequestHandle.header_append_new _ _ _ hnew, ?_⟩
  · rw [ContentCall.run_eq]
    simp only [HttpRequest.SetContent, SetContentHeader, HttpAddRequestHeadersW,
      ContentCall.content_name, hany, Bool.false_eq_true, if_false]
  · intro e he hname
    rcases List.mem_append.mp he with h1 | h1
    · exact absurd hname (hnew e h1)
    · rw [List.mem_singleton.mp h1]

theorem runCalls_release (reserved : Char → Bool) (calls : List ContentCall)
    (last : ContentCall) :
    ∀ req : HttpRequest,
      (runCalls true reserved req (calls ++ [last])).2 =
        List.replicate (calls.length + 1) none ∧
      (runCalls true reserved req (calls ++ [last])).1.body_ = (last.content reserved).2 ∧
      (runCalls true reserved req (calls ++ [last])).1.request_.header "Content-Type" =
        some (last.content reserved).1 ∧
      ∀ e ∈ (runCalls true reserved req (calls ++ [last])).1.request_.lines,
        e.1 = "Content-Type" → e.2 = (last.content reserved).1 := by
  induction calls with
  | nil =>
    intro req
    obtain ⟨req', hrun, hbody, hhdr, hall⟩ := ContentCall.run_release reserved req last
    simp only [List.nil_append, runCalls, hrun]
    exact ⟨rfl, hbody, hhdr, hall⟩
  | cons c cs ih =>
    intro req
    obtain ⟨req', hrun, _, _, _⟩ := ContentCall.run_release reserved req c
    obtain ⟨h1, h2, h3, h4⟩ := ih req'
    simp only [List.cons_append, runCalls, hrun, List.length_cons, List.append_eq]
    refine ⟨?_, h2, h3, h4⟩
    rw [h1]
    rfl

theorem runCalls_debug_rejected (reserved : Char → Bool) (calls : List ContentCall)
    (req : HttpRequest) (line : String)
    (h : req.request_.header "Content-Type" = some line) :
    runCalls false reserved req calls =
      (req, calls.map (fun _ => some (.thrown "HttpAddRequestHeadersW"))) := by
  induction calls with
  | nil => rfl
  | cons c cs ih =>
    simp only [runCalls, ContentCall.run_debug_rejected reserved req c line h, ih, List.map_cons]

/-- C6 (as amended). Content calls on the engine, for one or more calls among
`SetPayload`, `SetJSON` and `SetMultipart` on one `HttpRequest`.  In a build
with `NDEBUG` no call fails, and afterwards the body to be sent is the body
encoded by the last call and the only `Content-Type` header of the request
handle is the content-type line of the last call.  In a build without `NDEBUG`,
on a handle that has no `Content-Type` header yet, the first call takes effect,
every later call throws, and the body and `Content-Type` header of the first
call stay in effect. -/
theorem C6_content_calls (reserved : Char → Bool) (req : HttpRequest)
    (first : ContentCall) (rest : List ContentCall) :
    ((runCalls true reserved req (first :: rest)).2 =
        List.replicate (rest.length + 1) none ∧
      (runCalls true reserved req (first :: rest)).1.body_ =
        (((first :: rest).getLast (List.cons_ne_nil _ _)).content reserved).2 ∧
      (runCalls true reserved req (first :: rest)).1.request_.header "Content-Type" =
        some (((first :: rest).getLast (List.cons_ne_nil _ _)).content reserved).1 ∧
      ∀ e ∈ (runCalls true reserved req (first :: rest)).1.request_.lines,
        e.1 = "Content-Type" →
          e.2 = (((first :: rest).getLast (List.cons_ne_nil _ _)).content reserved).1) ∧
    (req.request_.header "Content-Type" = none →
      (runCalls false reserved req (first :: rest)).2 =
        none :: rest.map (fun _ => some (.thrown "HttpAddRequestHeadersW")) ∧
      (runCalls false reserved req (first :: rest)).1.body_ = (first.content reserved).2 ∧
      (runCalls false reserved req (first :: rest)).1.request_.header "Content-Type" =
        some (first.content reserved).1 ∧
      ∀ e ∈ (runCalls false reserved req (first :: rest)).1.request_.lines,
        e.1 = "Content-Type" → e.2 = (first.content reserved).1) := by
  constructor
  · have hsplit : first :: rest =
        (first :: rest).dropLast ++ [(first :: rest).getLast (List.cons_ne_nil _ _)] :=
      (List.dropLast_append_getLast (List.cons_ne_nil _ _)).symm
    have hlen : (first :: rest).dropLast.length = rest.length := by simp
    have h := runCalls_release reserved (first :: rest).dropLast
      ((first :: rest).getLast (List.cons_ne_nil _ _)) req
    rw [← hsplit, hlen] at h
    exact h
  · intro hfresh
    obtain ⟨req', hrun, hbody, hhdr, hall⟩ := ContentCall.run_debug_new reserved req first hfresh
    have hrest := runCalls_debug_rejected reserved rest req' _ hhdr
    simp only [runCalls, hrun, hrest]
    exact ⟨trivial, hbody, hhdr, hall⟩

theorem C6_content_calls_witness :
    ((runCalls true exampleReserved exampleRequest
          [.SetPayload ⟨[("a", "b")]⟩, .SetJSON ⟨"\x7b\x7d"⟩]).2 =
        List.replicate ([ContentCall.SetJSON ⟨"\x7b\x7d"⟩].length + 1) none ∧
      (runCalls true exampleReserved exampleRequest
          [.SetPayload ⟨[("a", "b")]⟩, .SetJSON ⟨"\x7b\x7d"⟩]).1.body_ =
        (([ContentCall.SetPayload ⟨[("a", "b")]⟩, .SetJSON ⟨"\x7b\x7d"⟩].getLast
          (List.cons_ne_nil _ _)).content exampleReserved).2 ∧
      (runCalls true exampleReserved exampleRequest
          [.SetPayload ⟨[("a", "b")]⟩, .SetJSON ⟨"\x7b\x7d"⟩]).1.request_.header
            "Content-Type" =
        some (([ContentCall.SetPayload ⟨[("a", "b")]⟩, .SetJSON ⟨"\x7b\x7d"⟩].getLast
          (List.cons_ne_nil _ _)).content exampleReserved).1 ∧
      ∀ e ∈ (runCalls true exampleReserved exampleRequest
          [.SetPayload ⟨[("a", "b")]⟩, .SetJSON ⟨"\x7b\x7d"⟩]).1.request_.lines,
        e.1 = "Content-Type" →
          e.2 = (([ContentCall.SetPayload ⟨[("a", "b")]⟩, .SetJSON ⟨"\x7b\x7d"⟩].getLast
            (List.cons_ne_nil _ _)).content exampleReserved).1) ∧
    (exampleRequest.request_.header "Content-Type" = none →
      (runCalls false exampleReserved exampleRequest
          [.SetPayload ⟨[("a", "b")]⟩, .SetJSON ⟨"\x7b\x7d"⟩]).2 =
        none :: [ContentCall.SetJSON ⟨"\x7b\x7d"⟩].map
          (fun _ => some (.thrown "HttpAddRequestHeadersW")) ∧
      (runCalls false exampleReserved exampleRequest
          [.SetPayload ⟨[("a", "b")]⟩, .SetJSON ⟨"\x7b\x7d"⟩]).1.body_ =
        ((ContentCall.SetPayload ⟨[("a", "b")]⟩).content exampleReserved).2 ∧
      (runCalls false exampleReserved exampleRequest
          [.SetPayload ⟨[("a", "b")]⟩, .SetJSON ⟨"\x7b\x7d"⟩]).1.request_.header
            "Content-Type" =
        some ((ContentCall.SetPayload ⟨[("a", "b")]⟩).content exampleReserved).1 ∧
      ∀ e ∈ (runCalls false exampleReserved exampleRequest
          [.SetPayload ⟨[("a", "b")]⟩, .SetJSON ⟨"\x7b\x7d"⟩]).1.request_.lines,
        e.1 = "Content-Type" →
          e.2 = ((ContentCall.SetPayload ⟨[("a", "b")]⟩).content exampleReserved).1) :=
  C6_content_calls exampleReserved exampleRequest (.SetPayload ⟨[("a", "b")]⟩)
    [.SetJSON ⟨"\x7b\x7d"⟩]

/-- C6, the claim as stated fails in a build without `NDEBUG`: after `SetPayload`
and then `SetJSON` on a fresh request the second call has thrown, and the body
and the `Content-Type` header are still those of the payload, not of the JSON. -/
theorem C6_last_call_does_not_win_in_debug :
    (runCalls false exampleReserved exampleRequest
        [.SetPayload ⟨[("a", "b")]⟩, .SetJSON ⟨"\x7b\x7d"⟩]).2 =
      [none, some (.thrown "HttpAddRequestHeadersW")] ∧
    (runCalls false exampleReserved exampleRequest
        [.SetPayload ⟨[("a", "b")]⟩, .SetJSON ⟨"\x7b\x7d"⟩]).1.body_ = "a=b" ∧
    (runCalls false exampleReserved exampleRequest
        [.SetPayload ⟨[("a", "b")]⟩, .SetJSON ⟨"\x7b\x7d"⟩]).1.body_ ≠
      ((ContentCall.SetJSON ⟨"\x7b\x7d"⟩).content exampleReserved).2 ∧
    (runCalls false exampleReserved exampleRequest
        [.SetPayload ⟨[("a", "b")]⟩, .SetJSON ⟨"\x7b\x7d"⟩]).1.request_.header "Content-Type" =
      some "Content-Type: application/x-www-form-urlencoded\r\n" ∧
    (runCalls false exampleReserved exampleRequest
        [.SetPayload ⟨[("a", "b")]⟩, .SetJSON ⟨"\x7b\x7d"⟩]).1.request_.header "Content-Type" ≠
      some ((ContentCall.SetJSON ⟨"\x7b\x7d"⟩).content exampleReserved).1 := by
  decide

/-! ## Serialising headers -/

theorem Headers.mem_insertEntry (key value : String) (l : List (String × String))
    (e : String × String) (he : e ∈ Headers.insertEntry key value l) :
    e = (key, value) ∨ e ∈ l := by
  induction l with
  | nil =>
    rw [Headers.insertEntry] at he
    exact Or.inl (List.mem_singleton.mp he)
  | cons x rest ih =>
    obtain ⟨k, v⟩ := x
    rw [Headers.insertEntry] at he
    split at he
    · rcases List.mem_cons.mp he with h | h
      · exact Or.inl h
      · exact Or.inr h
    · split at he
      · rcases List.mem_cons.mp he with h | h
        · exact Or.inr (h ▸ List.mem_cons_self _ _)
        · rcases ih h with h2 | h2
          · exact Or.inl h2
          · exact Or.inr (List.mem_cons_of_mem _ h2)
      · rcases List.mem_cons.mp he with h | h
        · exact Or.inl h
        · exact Or.inr (List.mem_cons_of_mem _ h)

theorem Headers.mem_insertNew (key value : String) (l : List (String × String))
    (e : String × String) (he : e ∈ Headers.insertNew key value l) :
    e = (key, value) ∨ e ∈ l := by
  induction l with
  | nil =>
    rw [Headers.insertNew] at he
    exact Or.inl (List.mem_singleton.mp he)
  | cons x rest ih =>
    obtain ⟨k, v⟩ := x
    rw [Headers.insertNew] at he
    split at he
    · rcases List.mem_cons.mp he with h | h
      · exact Or.inl h
      · exact Or.inr h
    · split at he
      · rcases List.mem_cons.mp he with h | h
        · exact Or.inr (h ▸ List.mem_cons_self _ _)
        · rcases ih h with h2 | h2
          · exact Or.inl h2
          · exact Or.inr (List.mem_cons_of_mem _ h2)
      · exact Or.inr he

theorem Headers.ascending_insertEntry (key value : String) (l : List (String × String))
    (hl : Headers.Ascending l) : Headers.Ascending (Headers.insertEntry key value l) := by
  induction l with
  | nil => simp [Headers.insertEntry, Headers.Ascending]
  | cons x rest ih =>
    obtain ⟨k, v⟩ := x
    have hhead : ∀ e ∈ rest, less k e.1 = true := (List.pairwise_cons.mp hl).1
    have htail : Headers.Ascending rest := (List.pairwise_cons.mp hl).2
    rw [Headers.insertEntry]
    by_cases h1 : less key k = true
    · rw [if_pos h1]
      refine List.pairwise_cons.mpr ⟨?_, hl⟩
      intro e he
      rcases List.mem_cons.mp he with h | h
      · rw [h]; exact h1
      · exact less_trans _ _ _ h1 (hhead e h)
    · rw [if_neg h1]
      by_cases h2 : less k key = true
      · rw [if_pos h2]
        refine List.pairwise_cons.mpr ⟨?_, ih htail⟩
        intro e he
        rcases Headers.mem_insertEntry key value rest e he with h | h
        · rw [h]; exact h2
        · exact hhead e h
      · rw [if_neg h2]
        have hk : key = k := less_total key k (by simpa using h1) (by simpa using h2)
        refine List.pairwise_cons.mpr ⟨?_, htail⟩
        intro e he
        rw [hk]
        exact hhead e he

theorem Headers.ascending_insertNew (key value : String) (l : List (String × String))
    (hl : Headers.Ascending l) : Headers.Ascending (Headers.insertNew key value l) := by
  induction l with
  | nil => simp [Headers.insertNew, Headers.Ascending]
  | cons x rest ih =>
    obtain ⟨k, v⟩ := x
    have hhead : ∀ e ∈ rest, less k e.1 = true := (List.pairwise_cons.mp hl).1
    have htail : Headers.Ascending rest := (List.pairwise_cons.mp hl).2
    rw [Headers.insertNew]
    by_cases h1 : less key k = true
    · rw [if_pos h1]
      refine List.pairwise_cons.mpr ⟨?_, hl⟩
      intro e he
      rcases List.mem_cons.mp he with h | h
      · rw [h]; exact h1
      · exact less_trans _ _ _ h1 (hhead e h)
    · rw [if_neg h1]
      by_cases h2 : less k key = true
      · rw [if_pos h2]
        refine List.pairwise_cons.mpr ⟨?_, ih htail⟩
        intro e he
        rcases Headers.mem_insertNew key value rest e he with h | h
        · rw [h]; exact h2
        · exact hhead e h
      · rw [if_neg h2]
        exact hl

theorem Headers.ascending_ofInit (init : List (String × String)) :
    Headers.Ascending (Headers.ofInit init).headers_ := by
  have h : ∀ (l acc : List (String × String)), Headers.Ascending acc →
      Headers.Ascending (l.foldl (fun acc kv => Headers.insertNew kv.1 kv.2 acc) acc) := by
    intro l
    induction l with
    | nil => intro acc hacc; exact hacc
    | cons x xs ih =>
      intro acc hacc
      exact ih _ (Headers.ascending_insertNew x.1 x.2 acc hacc)
  exact h init [] List.Pairwise.nil

theorem Headers.ascending_apply (h : Headers) (op : Headers.Op)
    (hh : Headers.Ascending h.headers_) : Headers.Ascending (h.apply op).headers_ := by
  cases op with
  | SetHeader key value => exact Headers.ascending_insertEntry key value _ hh
  | RemoveHeader key => exact List.Pairwise.filter _ hh
  | clear => exact List.Pairwise.nil

theorem Headers.ascending_build (init : List (String × String)) (ops : List Headers.Op) :
    Headers.Ascending (Headers.build init ops).headers_ := by
  have h : ∀ (l : List Headers.Op) (h0 : Headers), Headers.Ascending h0.headers_ →
      Headers.Ascending (l.foldl Headers.apply h0).headers_ := by
    intro l
    induction l with
    | nil => intro h0 hh; exact hh
    | cons x xs ih =>
      intro h0 hh
      exact ih _ (Headers.ascending_apply h0 x hh)
  exact h ops _ (Headers.ascending_ofInit init)

theorem Headers.foldl_lines (l : List (String × String)) :
    ∀ out : String,
      l.foldl
        (fun out kv =>
          if kv.2.data.isEmpty then out ++ kv.1 ++ ":" ++ "\r\n"
          else out ++ kv.1 ++ ": " ++ kv.2 ++ "\r\n") out =
      out ++ concat (l.map (fun kv =>
        if kv.2 = "" then kv.1 ++ ":\r\n" else kv.1 ++ ": " ++ kv.2 ++ "\r\n")) := by
  induction l with
  | nil => intro out; simp [concat]
  | cons x xs ih =>
    intro out
    rw [List.foldl_cons, ih, List.map_cons, concat]
    by_cases hx : x.2 = ""
    · have hx2 : x.2.data.isEmpty = true := by rw [hx]; rfl
      rw [if_pos hx2, if_pos hx]
      apply String.ext
      simp only [String.data_append, List.append_assoc]
      rfl
    · have hx2 : ¬ x.2.data.isEmpty = true := by
        intro h
        apply hx
        apply String.ext
        simpa using h
      rw [if_neg hx2, if_neg hx]
      apply String.ext
      simp only [String.data_append, List.append_assoc]

/-- C7. `Headers::ToString` wire format: for every `Headers` object (built from an
initializer list and any sequence of `SetHeader`, `RemoveHeader` and `clear`),
the entries are in strictly ascending key order and `ToString()` is the
concatenation over them of `key: value\r\n`, or `key:\r\n` for an empty value,
followed by one `\r\n`; so the result ends with `\r\n`, and for the empty map
it is exactly `\r\n`. -/
theorem C7_headers_to_string (init : List (String × String)) (ops : List Headers.Op) :
    (Headers.build init ops).headers_.Pairwise (fun a b => less a.1 b.1 = true) ∧
    (Headers.build init ops).ToString =
      concat ((Headers.build init ops).headers_.map (fun kv =>
        if kv.2 = "" then kv.1 ++ ":\r\n" else kv.1 ++ ": " ++ kv.2 ++ "\r\n")) ++ "\r\n" ∧
    (∃ s : String, (Headers.build init ops).ToString = s ++ "\r\n") ∧
    Headers.mk0.ToString = "\r\n" := by
  have hfmt : (Headers.build init ops).ToString =
      concat ((Headers.build init ops).headers_.map (fun kv =>
        if kv.2 = "" then kv.1 ++ ":\r\n" else kv.1 ++ ": " ++ kv.2 ++ "\r\n")) ++ "\r\n" := by
    rw [Headers.ToString, Headers.foldl_lines, String.empty_append]
  exact ⟨Headers.ascending_build init ops, hfmt, ⟨_, hfmt⟩, rfl⟩

/-- The test `TypeHeaders.ToString` of the repository, on the modelled function. -/
theorem Headers_ToString_test :
    (Headers.ofInit [("key1", "value1"), ("key2", ""), ("key3", "value3")]).ToString =
      "key1: value1\r\nkey2:\r\nkey3: value3\r\n\r\n" := by
  decide

/-! ## Form encoding -/

theorem hexDigit_ne (n : Nat) (hn : n < 16) : hexDigit n ≠ '&' ∧ hexDigit n ≠ '=' := by
  interval_cases n <;> decide

theorem percentEncode_not_mem (c : Char) :
    '&' ∉ percentEncode c ∧ '=' ∉ percentEncode c := by
  have h1 := hexDigit_ne (c.toNat / 16 % 16) (Nat.mod_lt _ (by decide))
  have h2 := hexDigit_ne (c.toNat % 16) (Nat.mod_lt _ (by decide))
  constructor
  · intro h
    simp only [percentEncode, List.mem_cons, List.mem_singleton] at h
    rcases h with h | h | h | h
    · exact absurd h (by decide)
    · exact h1.1 h.symm
    · exact h2.1 h.symm
    · cases h
  · intro h
    simp only [percentEncode, List.mem_cons, List.mem_singleton] at h
    rcases h with h | h | h | h
    · exact absurd h (by decide)
    · exact h1.2 h.symm
    · exact h2.2 h.symm
    · cases h

theorem escapeChars_not_mem (reserved : Char → Bool) (x : Char) (hx : reserved x = true)
    (hp : ∀ c, x ∉ percentEncode c) (s : List Char) : x ∉ escapeChars reserved s := by
  induction s with
  | nil => simp [escapeChars]
  | cons c cs ih =>
    rw [escapeChars]
    intro h
    rcases List.mem_append.mp h with h1 | h1
    · by_cases hc : reserved c = true
      · rw [if_pos hc] at h1
        exact hp c h1
      · rw [if_neg hc] at h1
        rw [List.mem_singleton.mp h1] at hx
        exact hc hx
    · exact ih h1

theorem escapeChars_unreserved (reserved : Char → Bool) (s : List Char)
    (hs : ∀ c ∈ s, reserved c = false) : escapeChars reserved s = s := by
  induction s with
  | nil => rfl
  | cons c cs ih =>
    have hc : reserved c = false := hs c (List.mem_cons_self _ _)
    rw [escapeChars, hc, ih (fun d hd => hs d (List.mem_cons_of_mem _ hd))]
    rfl

theorem joinWith_cons (sep s : String) (rest : List String) :
    joinWith sep (s :: rest) = s ++ concat (rest.map (fun t => sep ++ t)) := by
  induction rest generalizing s with
  | nil => simp [joinWith, concat]
  | cons t ts ih =>
    rw [joinWith, ih, List.map_cons, concat]
    simp only [String.append_assoc]

theorem encodePairs_foldl (reserved : Char → Bool) (pairs : List (String × String)) :
    ∀ content : String, content.data ≠ [] →
      pairs.foldl
        (fun content kv =>
          (if content.data.isEmpty then content else content ++ "&") ++ pairSegment reserved kv)
        content =
      content ++ concat (pairs.map (fun kv => "&" ++ pairSegment reserved kv)) := by
  induction pairs with
  | nil => intro content _; simp [concat]
  | cons p ps ih =>
    intro content hc
    have hc2 : content.data.isEmpty = false := by
      cases h : content.data with
      | nil => exact absurd h hc
      | cons a as => rfl
    rw [List.foldl_cons, hc2]
    simp only [Bool.false_eq_true, if_false]
    rw [ih, List.map_cons, concat]
    · simp only [String.append_assoc]
    · intro h
      rw [String.data_append, String.data_append] at h
      have := List.append_eq_nil.mp h
      exact hc (List.append_eq_nil.mp this.1).1

theorem pairSegment_of_not_empty (reserved : Char → Bool) (kv : String × String)
    (h : ¬ (kv.1 = "" ∧ kv.2 = "")) :
    pairSegment reserved kv = Escape reserved kv.1 ++ "=" ++ Escape reserved kv.2 := by
  unfold pairSegment
  have hne : ¬ ((kv.1.data.isEmpty && kv.2.data.isEmpty) = true) := by
    intro hb
    rw [Bool.and_eq_true] at hb
    apply h
    constructor
    · apply String.ext; simpa using hb.1
    · apply String.ext; simpa using hb.2
  rw [if_neg hne]

theorem encodePairs_eq_joinWith (reserved : Char → Bool) (pairs : List (String × String))
    (hne : ∀ kv ∈ pairs, ¬ (kv.1 = "" ∧ kv.2 = "")) :
    encodePairs reserved pairs =
      joinWith "&" (pairs.map (fun kv =>
        Escape reserved kv.1 ++ "=" ++ Escape reserved kv.2)) := by
  have hmap : pairs.map (pairSegment reserved) =
      pairs.map (fun kv => Escape reserved kv.1 ++ "=" ++ Escape reserved kv.2) :=
    List.map_congr_left (fun kv hkv => pairSegment_of_not_empty reserved kv (hne kv hkv))
  rw [← hmap]
  cases pairs with
  | nil => rfl
  | cons p ps =>
    have hp := pairSegment_of_not_empty reserved p (hne p (List.mem_cons_self _ _))
    rw [encodePairs, List.foldl_cons]
    simp only [List.isEmpty_nil, if_true, String.empty_append, List.map_cons]
    have hdata : ("" : String).data.isEmpty = true := rfl
    rw [encodePairs_foldl, joinWith_cons, List.map_map]
    · rfl
    · rw [hp]
      simp [String.data_append]

theorem Parameters.params_foldl_Add (adds : List (String × String)) :
    ∀ p : Parameters, (adds.foldl Parameters.Add p).params = p.params ++ adds := by
  induction adds with
  | nil => intro p; simp
  | cons a as ih =>
    intro p
    rw [List.foldl_cons, ih, Parameters.Add, List.append_assoc]
    rfl

theorem Escape_not_mem (reserved : Char → Bool) (hamp : reserved '&' = true)
    (heq : reserved '=' = true) (s : String) :
    '&' ∉ (Escape reserved s).data ∧ '=' ∉ (Escape reserved s).data :=
  ⟨escapeChars_not_mem reserved '&' hamp (fun c => (percentEncode_not_mem c).1) s.data,
    escapeChars_not_mem reserved '=' heq (fun c => (percentEncode_not_mem c).2) s.data⟩

theorem count_segment (reserved : Char → Bool) (hamp : reserved '&' = true)
    (heq : reserved '=' = true) (kv : String × String) :
    (Escape reserved kv.1 ++ "=" ++ Escape reserved kv.2).data.count '&' = 0 ∧
    (Escape reserved kv.1 ++ "=" ++ Escape reserved kv.2).data.count '=' = 1 := by
  have h1 := Escape_not_mem reserved hamp heq kv.1
  have h2 := Escape_not_mem reserved hamp heq kv.2
  have hlit : ("=" : String).data = ['='] := rfl
  simp only [String.data_append, List.count_append, hlit,
    List.count_eq_zero_of_not_mem h1.1, List.count_eq_zero_of_not_mem h1.2,
    List.count_eq_zero_of_not_mem h2.1, List.count_eq_zero_of_not_mem h2.2]
  constructor <;> decide

theorem count_joinWith (reserved : Char → Bool) (hamp : reserved '&' = true)
    (heq : reserved '=' = true) (pairs : List (String × String)) :
    (joinWith "&" (pairs.map (fun kv =>
      Escape reserved kv.1 ++ "=" ++ Escape reserved kv.2))).data.count '&' = pairs.length - 1 ∧
    (joinWith "&" (pairs.map (fun kv =>
      Escape reserved kv.1 ++ "=" ++ Escape reserved kv.2))).data.count '=' = pairs.length := by
  have htail : ∀ l : List (String × String),
      (concat ((l.map (fun kv => Escape reserved kv.1 ++ "=" ++ Escape reserved kv.2)).map
        (fun t => "&" ++ t))).data.count '&' = l.length ∧
      (concat ((l.map (fun kv => Escape reserved kv.1 ++ "=" ++ Escape reserved kv.2)).map
        (fun t => "&" ++ t))).data.count '=' = l.length := by
    intro l
    induction l with
    | nil => exact ⟨rfl, rfl⟩
    | cons kv kvs ih =>
      have hseg := count_segment reserved hamp heq kv
      have hlit : ("&" : String).data = ['&'] := rfl
      simp only [List.map_cons, concat, String.data_append, List.count_append, ih.1, ih.2,
        hseg.1, hseg.2, hlit, List.length_cons] at hseg ⊢
      constructor
      · have : List.count '&' ['&'] = 1 := by decide
        omega
      · have : List.count '=' ['&'] = 0 := by decide
        omega
  cases pairs with
  | nil => exact ⟨rfl, rfl⟩
  | cons kv kvs =>
    have hseg := count_segment reserved hamp heq kv
    have ht := htail kvs
    rw [List.map_cons, joinWith_cons]
    simp only [String.data_append, List.count_append, ht.1, ht.2, List.length_cons] at hseg ⊢
    omega

/-- C8 (as amended). `Parameters::ToString` query encoding: for every sequence of
(key, value) pairs built by the initializer list and `Add` in which no pair has
both key and value empty, `ToString()` is the segments `enc(key)=enc(value)`,
one per pair, in insertion order with duplicate keys kept, joined by `&`; `enc`
turns space into `%20`, `&` into `%26`, `=` into `%3D` and leaves letters,
digits and `.` unchanged, and never outputs `&` or `=`, so the output has one
`=` per pair and one `&` between neighbouring pairs. -/
theorem C8_parameters_to_string (reserved : Char → Bool)
    (init adds : List (String × String))
    (hsp : reserved ' ' = true) (hamp : reserved '&' = true) (heq : reserved '=' = true)
    (hkeep : ∀ c : Char, (c.isAlphanum || c == '.') = true → reserved c = false)
    (hne : ∀ kv ∈ init ++ adds, ¬ (kv.1 = "" ∧ kv.2 = "")) :
    (adds.foldl Parameters.Add ⟨init⟩).ToString reserved =
      joinWith "&" ((init ++ adds).map (fun kv =>
        Escape reserved kv.1 ++ "=" ++ Escape reserved kv.2)) ∧
    Escape reserved " " = "%20" ∧ Escape reserved "&" = "%26" ∧ Escape reserved "=" = "%3D" ∧
    (∀ s : String, (∀ c ∈ s.data, (c.isAlphanum || c == '.') = true) → Escape reserved s = s) ∧
    (∀ s : String, '&' ∉ (Escape reserved s).data ∧ '=' ∉ (Escape reserved s).data) ∧
    ((adds.foldl Parameters.Add ⟨init⟩).ToString reserved).data.count '&' =
      (init ++ adds).length - 1 ∧
    ((adds.foldl Parameters.Add ⟨init⟩).ToString reserved).data.count '=' =
      (init ++ adds).length := by
  have hfmt : (adds.foldl Parameters.Add ⟨init⟩).ToString reserved =
      joinWith "&" ((init ++ adds).map (fun kv =>
        Escape reserved kv.1 ++ "=" ++ Escape reserved kv.2)) := by
    rw [Parameters.ToString, Parameters.params_foldl_Add]
    exact encodePairs_eq_joinWith reserved _ hne
  have hcount := count_joinWith reserved hamp heq (init ++ adds)
  refine ⟨hfmt, ?_, ?_, ?_, ?_, Escape_not_mem reserved hamp heq, ?_, ?_⟩
  · apply String.ext
    show escapeChars reserved [' '] = _
    rw [escapeChars, hsp, escapeChars]
    decide
  · apply String.ext
    show escapeChars reserved ['&'] = _
    rw [escapeChars, hamp, escapeChars]
    decide
  · apply String.ext
    show escapeChars reserved ['='] = _
    rw [escapeChars, heq, escapeChars]
    decide
  · intro s hs
    apply String.ext
    exact escapeChars_unreserved reserved s.data (fun c hc => hkeep c (hs c hc))
  · rw [hfmt]; exact hcount.1
  · rw [hfmt]; exact hcount.2

theorem exampleReserved_keeps (c : Char) (h : (c.isAlphanum || c == '.') = true) :
    exampleReserved c = false := by
  unfold exampleReserved
  rcases Bool.or_eq_true _ _ ▸ h with h1 | h1
  · simp [h1]
  · simp [h1]

theorem C8_parameters_to_string_witness :
    ((([("uid", "789"), ("appkey", "winant http"), ("appkey", "backup&winant")] :
        List (String × String)).foldl Parameters.Add
          ⟨[("access_key", "token123")]⟩).ToString exampleReserved =
      "access_key=token123&uid=789&appkey=winant%20http&appkey=backup%26winant") ∧
    ((([("uid", "789"), ("appkey", "winant http"), ("appkey", "backup&winant")] :
        List (String × String)).foldl Parameters.Add
          ⟨[("access_key", "token123")]⟩).ToString exampleReserved =
      joinWith "&" (([("access_key", "token123")] ++
        [("uid", "789"), ("appkey", "winant http"), ("appkey", "backup&winant")]).map (fun kv =>
          Escape exampleReserved kv.1 ++ "=" ++ Escape exampleReserved kv.2))) :=
  ⟨by decide,
    (C8_parameters_to_string exampleReserved [("access_key", "token123")]
      [("uid", "789"), ("appkey", "winant http"), ("appkey", "backup&winant")]
      (by decide) (by decide) (by decide) exampleReserved_keeps (by decide)).1⟩

/-- C8, the claim as stated fails for a pair of two empty strings: `ToString()`
is empty (the repository's test `TypeParameters.Empty`), where the claim's
formula gives `=`. -/
theorem C8_empty_pair_encodes_to_empty :
    (Parameters.mk [("", "")]).ToString exampleReserved = "" ∧
    joinWith "&" ([(("" : String), ("" : String))].map (fun kv =>
      Escape exampleReserved kv.1 ++ "=" ++ Escape exampleReserved kv.2)) = "=" ∧
    (Parameters.mk [("", "")]).ToString exampleReserved ≠
      joinWith "&" ([(("" : String), ("" : String))].map (fun kv =>
        Escape exampleReserved kv.1 ++ "=" ++ Escape exampleReserved kv.2)) := by
  decide

/-! ## Multipart -/

theorem foldl_append_eq {α : Type} (step : String → α → String) (g : α → String)
    (hstep : ∀ body x, step body x = body ++ g x) (l : List α) :
    ∀ body : String, l.foldl step body = body ++ concat (l.map g) := by
  induction l with
  | nil => intro body; simp [concat]
  | cons x xs ih =>
    intro body
    rw [List.foldl_cons, ih, hstep, List.map_cons, concat, String.append_assoc]

theorem Multipart.foldl_AddPart (parts : List Multipart.Part) :
    ∀ m : Multipart,
      (parts.foldl Multipart.AddPart m).files = m.files ++ Multipart.filesOf parts ∧
      (parts.foldl Multipart.AddPart m).values = m.values ++ Multipart.valuesOf parts := by
  induction parts with
  | nil => intro m; simp [Multipart.filesOf, Multipart.valuesOf]
  | cons p ps ih =>
    intro m
    rw [List.foldl_cons]
    cases p with
    | file f =>
      have h := ih (m.AddPart (.file f))
      simp only [Multipart.AddPart, List.append_assoc, List.singleton_append] at h
      exact h
    | value v =>
      have h := ih (m.AddPart (.value v))
      simp only [Multipart.AddPart, List.append_assoc, List.singleton_append] at h
      exact h

theorem Multipart.ToString_eq (t : String) (m : Multipart) :
    m.ToString t =
      ("Content-Type: multipart/form-data; boundary=" ++ t ++ "\r\n",
        concat (m.files.map (Multipart.framedFile t)) ++
          concat (m.values.map (Multipart.framedValue t)) ++ "--" ++ t ++ "--\r\n") := by
  unfold Multipart.ToString
  simp only []
  rw [foldl_append_eq _ (Multipart.framedFile t) _ m.files "",
    foldl_append_eq _ (Multipart.framedValue t) _ m.values, String.empty_append]
  · intro body v
    apply String.ext
    simp only [Multipart.framedValue, String.data_append, List.append_assoc]
  · intro body f
    apply String.ext
    simp only [Multipart.framedFile, String.data_append, List.append_assoc]

/-- C9. `Multipart::ToString` framing: for every `Multipart` `m`, every further
sequence of `AddPart` calls in whatever order, and every boundary token `t` the
call generates, the files and the values are kept apart in call order, the
content-type line is `Content-Type: multipart/form-data; boundary=t\r\n`, and
the body is the framed part of every file in files order, then the framed part
of every value in values order, then `--t--\r\n`, all with the same token `t`. -/
theorem C9_multipart_framing (t : String) (m : Multipart) (parts : List Multipart.Part) :
    (parts.foldl Multipart.AddPart m).files = m.files ++ Multipart.filesOf parts ∧
    (parts.foldl Multipart.AddPart m).values = m.values ++ Multipart.valuesOf parts ∧
    ((parts.foldl Multipart.AddPart m).ToString t).1 =
      "Content-Type: multipart/form-data; boundary=" ++ t ++ "\r\n" ∧
    ((parts.foldl Multipart.AddPart m).ToString t).2 =
      concat ((m.files ++ Multipart.filesOf parts).map (fun f =>
        "--" ++ t ++ "\r\n"
          ++ "Content-Disposition: form-data; name=\"" ++ f.name
          ++ "\"; filename=\"" ++ f.filename ++ "\"\r\n"
          ++ "Content-Type: " ++ f.mime ++ "\r\n\r\n"
          ++ f.data ++ "\r\n")) ++
      concat ((m.values ++ Multipart.valuesOf parts).map (fun v =>
        "--" ++ t ++ "\r\n"
          ++ "Content-Disposition: form-data; name=\"" ++ v.1 ++ "\"\r\n\r\n"
          ++ v.2 ++ "\r\n")) ++
      "--" ++ t ++ "--\r\n" := by
  have h := Multipart.foldl_AddPart parts m
  refine ⟨h.1, h.2, ?_, ?_⟩
  · rw [Multipart.ToString_eq]
  · rw [Multipart.ToString_eq, h.1, h.2]
    rfl

set_option maxRecDepth 4096 in
/-- The test `TypeMultipart.Generation` of the repository, on the modelled function,
with the value added before the file. -/
theorem Multipart_ToString_test :
    (([Multipart.Part.value ("file_size", "unknown"),
        .file ⟨"file", "test.txt", Multipart.File.kDefaultMimeType, "hello, world!"⟩].foldl
          Multipart.AddPart ⟨[], []⟩).ToString "XyZ0").2 =
      "--XyZ0\r\nContent-Disposition: form-data; name=\"file\"; filename=\"test.txt\"\r\nContent-Type: application/octet-stream\r\n\r\nhello, world!\r\n--XyZ0\r\nContent-Disposition: form-data; name=\"file_size\"\r\n\r\nunknown\r\n--XyZ0--\r\n" := by
  decide

/-! ## The public API -/

/-- What `Get` returns never depends on a transport: it is the default response. -/
theorem Get_eq_default {Builder : Type} (ops : BuilderOps Builder) (d resp : HttpResponse)
    (arg : RequestOption) (args : List RequestOption)
    (h : Get ops d arg args = .ok resp) : resp = d := by
  unfold Get at h
  split at h
  · cases h
  · cases h; rfl

/-- The request `Get(Url("https://httpbin.org/get"))` builds, started against a
server that answers 200 with JSON. -/
theorem Start_of_built_request :
    ∃ req r resp,
      BuildRequest exampleBuilder .Get (.url ⟨"https://httpbin.org/get"⟩) [] = .ok req ∧
      req.Start Tokenizer (jsonTransport 200) = some r ∧ r.result = .ok resp ∧
      resp.status_code = 200 ∧
      resp.headers.GetHeader "Content-Type" = some "application/json" ∧
      resp.text = "\x7b\x7d" :=
  ⟨⟨.Get, ⟨"https://httpbin.org/get"⟩, ⟨[]⟩, "", LoadFlags.default, false⟩,
    ⟨[], [], .ok ⟨200, ⟨[("Content-Type", "application/json")]⟩, "\x7b\x7d"⟩⟩,
    ⟨200, ⟨[("Content-Type", "application/json")]⟩, "\x7b\x7d"⟩,
    by decide, by decide, rfl, rfl, by decide, rfl⟩

/-- C10, the code at the failing input: whatever the default-constructed response
`d` is, `Get(Url("https://httpbin.org/get"))` returns `d`, although there is a
server answer for which starting the built request yields a response different
from `d`. -/
theorem C10_Get_does_not_execute (d : HttpResponse) :
    Get exampleBuilder d (.url ⟨"https://httpbin.org/get"⟩) [] = .ok d ∧
    ∃ code req r resp,
      BuildRequest exampleBuilder .Get (.url ⟨"https://httpbin.org/get"⟩) [] = .ok req ∧
      req.Start Tokenizer (jsonTransport code) = some r ∧ r.result = .ok resp ∧
      resp.status_code = code ∧ resp ≠ d := by
  have hbuild : BuildRequest exampleBuilder .Get (.url ⟨"https://httpbin.org/get"⟩) [] =
      .ok ⟨.Get, ⟨"https://httpbin.org/get"⟩, ⟨[]⟩, "", LoadFlags.default, false⟩ := by
    decide
  refine ⟨by simp only [Get, hbuild], ?_⟩
  have hheaders : ∀ code : Int,
      ReadResponseHeaders Tokenizer (jsonTransport code) Headers.mk0 =
        .ok (true, ⟨[("Content-Type", "application/json")]⟩) := by
    intro code
    have h200 : ReadResponseHeaders Tokenizer (jsonTransport 200) Headers.mk0 =
        .ok (true, ⟨[("Content-Type", "application/json")]⟩) := by decide
    exact h200
  have hstart : ∀ code : Int,
      (HttpRequest.mk .Get ⟨"https://httpbin.org/get"⟩ ⟨[]⟩ "" LoadFlags.default false).Start
        Tokenizer (jsonTransport code) =
      some ⟨[], [], .ok ⟨code, ⟨[("Content-Type", "application/json")]⟩, "\x7b\x7d"⟩⟩ := by
    intro code
    have h := HttpRequest.Start_stream_ok Tokenizer
      (HttpRequest.mk .Get ⟨"https://httpbin.org/get"⟩ ⟨[]⟩ "" LoadFlags.default false)
      (jsonTransport code) code ⟨[("Content-Type", "application/json")]⟩ ["\x7b\x7d".data]
      (by decide) rfl rfl (hheaders code) (by decide) rfl
    rw [h]
    rfl
  by_cases hd : d.status_code = 200
  · refine ⟨404, _, _, _, hbuild, hstart 404, rfl, rfl, ?_⟩
    intro h
    rw [← h] at hd
    exact absurd hd (by decide)
  · refine ⟨200, _, _, _, hbuild, hstart 200, rfl, rfl, ?_⟩
    intro h
    rw [← h] at hd
    exact hd rfl

/-! ## Response body and read handler -/

theorem flatten_eq_nil_of_pos (chunks : List (List Char))
    (hpos : ∀ c ∈ chunks, 0 < c.length) : chunks.flatten = [] ↔ chunks = [] := by
  cases chunks with
  | nil => simp
  | cons c cs =>
    have hc : 0 < c.length := hpos c (List.mem_cons_self _ _)
    constructor
    · intro h
      rw [List.flatten_cons] at h
      have hc2 : c = [] := (List.append_eq_nil.mp h).1
      rw [hc2] at hc
      exact absurd hc (by decide)
    · intro h
      cases h

/-- C11 (as amended). Response body versus read handler: when `Start` reaches the
body, a read handler is registered and the transport answers the reads with the
non-empty chunks `c1..cn` (each at most the buffer size) and then a successful
0-byte read, the handler is handed `c1 ++ ... ++ cn`, and the body of the
returned response is decided by `load_flags_` alone: it is empty when the
`DoNotSaveResponseBody` bit is set, and it is `c1 ++ ... ++ cn` when the bit is
not set, so then it is empty only for a stream without data. -/
theorem C11_body_with_read_handler (tokenize : String → List String)
    (req : HttpRequest) (t : Transport) (code : Int) (hs : Headers)
    (chunks : List (List Char))
    (hhandler : req.read_response_handler_ = true)
    (hbody : req.body_.length ≤ 2 ^ 32 - 1) (hsend : t.send_ok = true)
    (hstatus : t.status_code = some code)
    (hhdr : ReadResponseHeaders tokenize t Headers.mk0 = .ok (true, hs))
    (hchunks : ∀ c ∈ chunks, 0 < c.length ∧ c.length ≤ kBufSize)
    (hreads : t.reads = chunks.map .ok ++ [.ok []]) :
    ∃ r resp, req.Start tokenize t = some r ∧ r.result = .ok resp ∧
      (r.calls.map HandlerCall.delivered).flatten = chunks.flatten ∧
      (req.load_flags_.flags &&& LoadFlags.DoNotSaveResponseBody ≠ 0 → resp.text = "") ∧
      (req.load_flags_.flags &&& LoadFlags.DoNotSaveResponseBody = 0 →
        resp.text = ⟨chunks.flatten⟩ ∧ (resp.text = "" ↔ chunks = [])) := by
  have hpos : ∀ c ∈ chunks, 0 < c.length := fun c hc => (hchunks c hc).1
  have hsize : ∀ c ∈ chunks, c.length ≤ kBufSize := fun c hc => (hchunks c hc).2
  have hmap := chunkCalls_delivered chunks hsize (List.replicate kBufSize '\x00')
  rw [HttpRequest.Start_stream_ok tokenize req t code hs chunks hbody hsend hstatus hhdr hpos
    hreads, hhandler]
  simp only [if_true]
  refine ⟨_, _, rfl, rfl, ?_, ?_, ?_⟩
  · have h2 := congrArg (fun l => (l.map Prod.snd).flatten) hmap
    simp only [List.map_map] at h2
    rw [List.map_append, List.flatten_append]
    simpa [HandlerCall.delivered, Function.comp_def] using h2
  · intro h; simp [h]
  · intro h
    have htext : (if req.load_flags_.flags &&& LoadFlags.DoNotSaveResponseBody ≠ 0 then ""
        else (⟨chunks.flatten⟩ : String)) = ⟨chunks.flatten⟩ := by simp [h]
    refine ⟨htext, ?_⟩
    show (if req.load_flags_.flags &&& LoadFlags.DoNotSaveResponseBody ≠ 0 then ""
        else (⟨chunks.flatten⟩ : String)) = "" ↔ chunks = []
    rw [htext, String.ext_iff]
    exact flatten_eq_nil_of_pos chunks hpos

theorem C11_body_with_read_handler_witness :
    ∃ r resp, exampleRequest.SetReadResponseHandler.Start Tokenizer
        (exampleTransport [.ok "ab".data, .ok "c".data, .ok []]) = some r ∧
      r.result = .ok resp ∧
      (r.calls.map HandlerCall.delivered).flatten = ["ab".data, "c".data].flatten ∧
      (exampleRequest.SetReadResponseHandler.load_flags_.flags &&&
          LoadFlags.DoNotSaveResponseBody ≠ 0 → resp.text = "") ∧
      (exampleRequest.SetReadResponseHandler.load_flags_.flags &&&
          LoadFlags.DoNotSaveResponseBody = 0 →
        resp.text = ⟨["ab".data, "c".data].flatten⟩ ∧
          (resp.text = "" ↔ ["ab".data, "c".data] = [])) :=
  C11_body_with_read_handler Tokenizer exampleRequest.SetReadResponseHandler
    (exampleTransport [.ok "ab".data, .ok "c".data, .ok []]) 200
    ⟨[("Content-Type", "application/json"), ("Server", "nginx")]⟩ ["ab".data, "c".data]
    (by decide) (by decide) (by decide) (by decide) (by decide) (by decide) (by decide)

/-- C11, the claim as stated fails: with a read handler registered and default
load flags, the handler is handed all of `abc` and the returned response still
has the body `abc`. -/
theorem C11_body_kept_with_read_handler :
    (exampleRequest.SetReadResponseHandler.Start Tokenizer
        (exampleTransport [.ok "ab".data, .ok "c".data, .ok []])).map
      (fun r => ((r.calls.map HandlerCall.delivered).flatten, r.result)) =
      some ("abc".data,
        .ok ⟨200, ⟨[("Content-Type", "application/json"), ("Server", "nginx")]⟩, "abc"⟩) ∧
    exampleRequest.SetReadResponseHandler.read_response_handler_ = true ∧
    exampleRequest.SetReadResponseHandler.load_flags_.flags &&&
      LoadFlags.DoNotSaveResponseBody = 0 := by
  decide

/-! ## Splitting a header line -/

/-- What `find` returns is a position at which the delimiter stands. -/
theorem findChars_split (delim : List Char) :
    ∀ (s : List Char) (pos : Nat), findChars delim s = some pos →
      s = s.take pos ++ delim ++ s.drop (pos + delim.length) := by
  intro s
  induction s with
  | nil =>
    intro pos h
    rw [findChars] at h
    split at h
    · rename_i hp
      have hd : delim = [] := List.prefix_nil.mp (List.isPrefixOf_iff_prefix.mp hp)
      simp [hd]
    · cases h
  | cons c cs ih =>
    intro pos h
    rw [findChars] at h
    split at h
    · rename_i hp
      cases h
      obtain ⟨t, ht⟩ := List.isPrefixOf_iff_prefix.mp hp
      rw [← ht]
      simp
    · cases hf : findChars delim cs with
      | none => rw [hf] at h; cases h
      | some p =>
        rw [hf] at h
        cases h
        have h2 := ih p hf
        rw [List.take_succ_cons, Nat.add_right_comm p 1 delim.length, List.drop_succ_cons,
          List.cons_append, List.cons_append, ← h2]

/-- No occurrence of a non-empty delimiter lies before the position `find` returns. -/
theorem findChars_first (delim : List Char) (hd : delim ≠ []) :
    ∀ (s : List Char) (pos : Nat), findChars delim s = some pos →
      ¬ delim <:+: s.take pos := by
  intro s
  induction s with
  | nil =>
    intro pos _ hin
    rw [List.take_nil] at hin
    exact hd (List.infix_nil.mp hin)
  | cons c cs ih =>
    intro pos h hin
    rw [findChars] at h
    split at h
    · cases h
      rw [List.take_zero] at hin
      exact hd (List.infix_nil.mp hin)
    · rename_i hp
      cases hf : findChars delim cs with
      | none => rw [hf] at h; cases h
      | some p =>
        rw [hf] at h
        cases h
        rw [List.take_succ_cons] at hin
        rcases List.infix_cons_iff.mp hin with h1 | h1
        · apply hp
          apply List.isPrefixOf_iff_prefix.mpr
          exact h1.trans ((List.prefix_cons_inj c).mpr (List.take_prefix p cs))
        · exact ih p hf h1

/-- A line `a ++ ": " ++ b` in which `a` has no `": "` is split into `a` and `b`. -/
theorem findChars_delim (a b : List Char) (ha : ¬ [':', ' '] <:+: a) :
    findChars [':', ' '] (a ++ [':', ' '] ++ b) = some a.length := by
  induction a with
  | nil => simp [findChars]
  | cons x xs ih =>
    have hxs : ¬ [':', ' '] <:+: xs := fun h => ha (List.infix_cons_iff.mpr (Or.inr h))
    have hnp : ¬ [':', ' '] <+: x :: xs := fun h => ha (List.infix_cons_iff.mpr (Or.inl h))
    have hp : ([':', ' '] : List Char).isPrefixOf (x :: xs ++ [':', ' '] ++ b) = false := by
      apply Bool.eq_false_iff.mpr
      intro hpre
      have hpre2 := List.isPrefixOf_iff_prefix.mp hpre
      cases xs with
      | nil =>
        obtain ⟨t, ht⟩ := hpre2
        simp only [List.cons_append, List.nil_append, List.cons.injEq] at ht
        exact absurd ht.2.1 (by decide)
      | cons y ys =>
        apply hnp
        obtain ⟨t, ht⟩ := hpre2
        simp only [List.cons_append, List.cons.injEq] at ht
        exact ⟨ys, by rw [← ht.1, ← ht.2.1]; rfl⟩
    have hp2 : ([':', ' '] : List Char).isPrefixOf (x :: (xs ++ [':', ' '] ++ b)) = false := hp
    rw [List.cons_append, List.cons_append, findChars, hp2, ih hxs]
    rfl

/-- `SplitHeaderLine` on a line `a ++ ": " ++ b` in which `a` has no `": "`. -/
theorem SplitHeaderLine_append (a b : String) (ha : ¬ ": ".data <:+: a.data) :
    SplitHeaderLine (a ++ ": " ++ b) = .ok (a, b) := by
  have hf : find (a ++ ": " ++ b) ": " = some a.data.length := by
    unfold find
    rw [String.data_append, String.data_append]
    exact findChars_delim a.data b.data ha
  simp only [SplitHeaderLine, hf]
  have hname : substr (a ++ ": " ++ b) 0 a.data.length = a := by
    apply String.ext
    simp only [substr, String.data_append, List.drop_zero, List.append_assoc]
    exact List.take_left _ _
  have hvalue : substrFrom (a ++ ": " ++ b) (a.data.length + ": ".length) = b := by
    apply String.ext
    have hlen : a.data.length + ": ".length = (a.data ++ ": ".data).length := by
      rw [List.length_append]; rfl
    simp only [substrFrom, String.data_append, hlen]
    exact List.drop_left _ _
  rw [hname, hvalue]

/-- C12 (as amended). `SplitHeaderLine` splits at the first delimiter: for every
header line that contains `": "` it returns `(name, value)` with
`name ++ ": " ++ value` equal to the line and no `": "` inside `name`; the pair
is the only such split, so any later `": "` stays in `value`; and `value` is
empty exactly when the line ends right after that first `": "`. -/
theorem C12_split_at_first_delimiter (line : String) (h : ": ".data <:+: line.data) :
    ∃ name value, SplitHeaderLine line = .ok (name, value) ∧
      name ++ ": " ++ value = line ∧
      ¬ ": ".data <:+: name.data ∧
      (∀ a b : String, line = a ++ ": " ++ b → ¬ ": ".data <:+: a.data →
        name = a ∧ value = b) ∧
      (value = "" ↔ line = name ++ ": ") := by
  cases hf : find line ": " with
  | none => exact absurd h ((findChars_eq_none_iff _ _).mp hf)
  | some pos =>
    have hsplit := findChars_split ": ".data line.data pos hf
    have hfirst := findChars_first ": ".data (by decide) line.data pos hf
    have hrun : SplitHeaderLine line =
        .ok (substr line 0 pos, substrFrom line (pos + ": ".length)) := by
      simp only [SplitHeaderLine, hf]
    have hjoin : substr line 0 pos ++ ": " ++ substrFrom line (pos + ": ".length) = line := by
      apply String.ext
      simp only [substr, substrFrom, String.data_append, List.drop_zero]
      exact hsplit.symm
    refine ⟨substr line 0 pos, substrFrom line (pos + ": ".length), hrun, hjoin, ?_, ?_, ?_⟩
    · simpa [substr] using hfirst
    · intro a b hab ha
      have h2 := SplitHeaderLine_append a b ha
      rw [← hab, hrun] at h2
      simp only [Except.ok.injEq, Prod.mk.injEq] at h2
      exact h2
    · constructor
      · intro hv
        rw [hv, String.append_empty] at hjoin
        exact hjoin.symm
      · intro hl
        have h3 : (substr line 0 pos ++ ": " ++ substrFrom line (pos + ": ".length)).data =
            (substr line 0 pos ++ ": ").data := by rw [hjoin, ← hl]
        rw [String.data_append] at h3
        apply String.ext
        exact List.append_right_eq_self.mp h3

theorem C12_split_at_first_delimiter_witness :
    ∃ name value, SplitHeaderLine "Warning: 199 host: stale" = .ok (name, value) ∧
      name ++ ": " ++ value = "Warning: 199 host: stale" ∧
      ¬ ": ".data <:+: name.data ∧
      (∀ a b : String, "Warning: 199 host: stale" = a ++ ": " ++ b →
        ¬ ": ".data <:+: a.data → name = a ∧ value = b) ∧
      (value = "" ↔ "Warning: 199 host: stale" = name ++ ": ") :=
  C12_split_at_first_delimiter "Warning: 199 host: stale" (by decide)

/-- The split of the example line: the later `": "` stays in the value. -/
theorem SplitHeaderLine_later_delimiter :
    SplitHeaderLine "Warning: 199 host: stale" = .ok ("Warning", "199 host: stale") ∧
    SplitHeaderLine "X-Empty: " = .ok ("X-Empty", "") := by
  decide

/-- C12, the claim as stated fails in its last part: the line `A: b: ` contains
`": "` and ends with `": "`, and its value is `b: `, not empty. -/
theorem C12_value_not_empty_for_trailing_delimiter :
    ": ".data <:+: "A: b: ".data ∧ ": ".data <:+ "A: b: ".data ∧
    SplitHeaderLine "A: b: " = .ok ("A", "b: ") ∧ ("b: " : String) ≠ "" := by
  decide

end wat
